import Mathlib

/-!
Verification of the job-lifecycle / human-approval core of the
generic-form-filling-agent repository.

Shallow embedding of `src/server/live_browser_server.py` (classes
`LiveJobManager`, `ConnectionManager`) together with the default engine
`src/agents/simple_browser_agent.py` (`SimpleBrowserAgent.fill_generic_form_simple`).

Modelling conventions:
* The manager's dictionaries (`jobs`, `pending_approvals`, `approval_data`) are
  keyed by job id and the owning task of a job touches only its own entries, so
  the state is projected to a single job id: `MState.job` is `jobs.get(job_id)`,
  `MState.gate` is the `pending_approvals` entry for that id (`some b` means an
  `asyncio.Event` is registered, `b` = `event.is_set()`), `MState.preview` is the
  `approval_data` entry.  `MState.events` is the ordered log of
  `broadcast_job_update` calls for the job (socket delivery is out of scope).
* Machine integers: Python ints are modelled as `Int`.
* Wall-clock timestamps (`datetime.now()`) and the uuid job id are abstracted;
  `job_screenshots` and the screenshot callback only feed that map and the event
  bus and are not referenced by any claim, so screenshot events are omitted.
* The async owner task `process_job_with_real_browser` (with
  `fill_generic_form_simple` inlined) is embedded as a script of atomic actions;
  an action is the code executed between two `await` points.  External
  `approve_job` calls and the task's own steps interleave at those points.
  `approve_job` itself contains one broadcast `await` but while it runs the
  owner is blocked on `event.wait()`, so it is modelled as one atomic step.
* The request model `FormFillingRequest` has no `browser_engine` field, hence
  `request_data.get("browser_engine", "default")` always yields `"default"` and
  the task always runs the `SimpleBrowserAgent` branch, which is what we embed.
* Engine-environment nondeterminism: `TaskCfg.initFail` (the browser
  constructor inside `SimpleBrowserAgent.initialize` raising, message `e`) and
  `TaskCfg.navFail` (`browser.navigate` raising, caught by the agent's
  `except`).  Uncaught exceptions escaping the whole `try` body of
  `process_job_with_real_browser` are a separate transition (`applyExn`).
-/

namespace FormAgent

/-- `JobStatus` enum of the server. -/
inductive JobStatus
  | queued
  | running
  | waiting_for_approval
  | approved
  | rejected
  | completed
  | failed
deriving DecidableEq, Repr

/-- `contact_info` payload (dashboard fields). -/
structure ContactInfo where
  name : String := ""
  email : String := ""
  phone : String := ""
  company : String := ""
  job_title : String := ""
deriving DecidableEq, Repr

/-- `FormFillingRequest` (pydantic model); uploaded files kept as names. -/
structure FormReq where
  target_url : String
  platform : String
  form_type : String := "contact"
  priority : String := "normal"
  subject : String := ""
  description : String
  reference_urls : List String := []
  additional_comments : String := ""
  uploaded_files : List String := []
  contact_info : ContactInfo := {}
  require_human_approval : Bool := true
  headless : Bool := false
deriving DecidableEq, Repr

/-- Python `str.startswith`, as used in
`request_data.get("target_url", "").startswith("http")` (executable prefix
test on the character lists). -/
def pyStartsWith (s p : String) : Bool := p.data.isPrefixOf s.data

/-- Python `str.title()` restricted to alphabetic runs: the first letter of
each run is upper-cased, the rest lower-cased.  (Python also treats other
"cased" characters specially; the inputs used here are plain ASCII words.) -/
def pyTitle (s : String) : String :=
  let step := fun (acc : List Char × Bool) (ch : Char) =>
    if ch.isAlpha then
      (((if acc.2 then ch.toLower else ch.toUpper) :: acc.1), true)
    else
      ((ch :: acc.1), false)
  String.mk ((s.data.foldl step ([], false)).1.reverse)

/-- The `form_preview` dict built by `fill_generic_form_simple` before the
approval request.  `timestamp` (wall clock) is abstracted to `""`. -/
structure FormPreview where
  target_url : String
  platform : String
  form_type : String
  priority : String
  subject : String
  description : String
  reference_urls : List String
  additional_comments : String
  uploaded_files : List String
  contact_name : String
  contact_email : String
  contact_phone : String
  contact_company : String
  contact_job_title : String
  timestamp : String
  form_fields_detected : List (String × String)
deriving DecidableEq, Repr

/-- Builds the `form_preview` dict from the request (source lines 203-231 of
`simple_browser_agent.py`). -/
def mkPreview (r : FormReq) : FormPreview :=
  { target_url := r.target_url
    platform := r.platform
    form_type := r.form_type
    priority := r.priority
    subject := r.subject
    description := r.description
    reference_urls := r.reference_urls
    additional_comments := r.additional_comments
    uploaded_files := r.uploaded_files
    contact_name := r.contact_info.name
    contact_email := r.contact_info.email
    contact_phone := r.contact_info.phone
    contact_company := r.contact_info.company
    contact_job_title := r.contact_info.job_title
    timestamp := ""
    form_fields_detected :=
      [("name_field", "Full Name"),
       ("email_field", "Email Address"),
       ("phone_field", "Phone Number (if available)"),
       ("company_field", "Company/Organization"),
       ("title_field", "Job Title/Role (if available)"),
       ("subject_field", pyTitle r.form_type ++ " - " ++ r.subject),
       ("message_field", "Main message/inquiry"),
       ("reference_field", "Reference URLs (if provided)"),
       ("priority_field", "Priority: " ++ r.priority),
       ("files_field", "Attached files: " ++ toString r.uploaded_files.length ++ " file(s)")] }

/-- Result dict returned by the engine call (`fill_generic_form_simple`), or
synthesised by `process_job_with_real_browser` for an invalid URL.  Absent
dict keys are `none`. -/
structure EngineResult where
  success : Bool
  error : Option String := none
  reason : Option String := none
  message : Option String := none
  form_data : Option FormPreview := none
  agent_result : Option String := none
  submit_result : Option String := none
deriving DecidableEq, Repr

/-- Typed payload of the `data` dict of a `broadcast_job_update` call. -/
inductive EventData
  | statusData (s : String)
  | progressData (n : Int)
  | previewData (p : FormPreview)
  | resultData (r : EngineResult)
  | errorData (e : String)
  | approvalData (approved : Bool) (analyst : String)
deriving DecidableEq, Repr

/-- One `broadcast_job_update(job_id, update_type, message, data)` call. -/
structure JEvent where
  update_type : String
  message : String
  data : EventData
deriving DecidableEq, Repr

/-- The per-job record stored in `LiveJobManager.jobs`.  The
`approved` / `approval_reason` / `approved_by` keys do not exist until
`approve_job` writes them (`none` = key absent). -/
structure Job where
  status : JobStatus
  request_data : FormReq
  progress_percentage : Int
  current_step : String
  result : Option EngineResult
  error : Option String
  approved : Option Bool
  approval_reason : Option String
  approved_by : Option String
deriving DecidableEq, Repr

/-- Manager state projected to one job id (see header). -/
structure MState where
  job : Option Job
  gate : Option Bool
  preview : Option FormPreview
  events : List JEvent
deriving DecidableEq, Repr

/-- `LiveJobManager.create_job`: the fresh job record (status QUEUED). -/
def create_job (r : FormReq) : Job :=
  { status := .queued
    request_data := r
    progress_percentage := 0
    current_step := "Job created"
    result := none
    error := none
    approved := none
    approval_reason := none
    approved_by := none }

/-- `LiveJobManager.approve_job(job_id, approved, reason, analyst_name)`:
returns `False` when the job id is unknown or has no `pending_approvals`
entry; otherwise records the decision on the job record, sets the status,
broadcasts `approval_received` and sets the approval event. -/
def approve_job (s : MState) (approved : Bool) (reason analyst : String) :
    Bool × MState :=
  match s.job with
  | none => (false, s)
  | some j =>
    match s.gate with
    | none => (false, s)
    | some _ =>
      let j2 := { j with
        approved := some approved
        approval_reason := some reason
        approved_by := some analyst
        status := if approved then JobStatus.approved else JobStatus.rejected }
      let ev : JEvent :=
        if approved then
          { update_type := "approval_received"
            message := "Job approved by " ++ analyst ++ ": " ++ reason
            data := .approvalData true analyst }
        else
          { update_type := "approval_received"
            message := "Job rejected by " ++ analyst ++ ": " ++ reason
            data := .approvalData false analyst }
      (true, { s with job := some j2, events := s.events ++ [ev], gate := some true })

/-- `LiveJobManager.get_pending_approvals` restricted to the projected job id:
`list(self.pending_approvals.keys())` contains `jid` iff an entry exists. -/
def get_pending_approvals (s : MState) (jid : String) : List String :=
  if s.gate.isSome then [jid] else []

/-- The `except Exception as e` handler of `process_job_with_real_browser`
(lines 302-311): status FAILED, error stored, error event broadcast. -/
def applyExn (s : MState) (msg : String) : MState :=
  match s.job with
  | none => s
  | some j =>
    { s with
      job := some { j with status := .failed, error := some msg }
      events := s.events ++
        [{ update_type := "error"
           message := "Job failed with exception: " ++ msg
           data := .errorData msg }] }

/-- Atomic actions of the owning task (code between two `await` points that
touches the manager state). -/
inductive Act
  | setRunning
  | emitProgress (msg : String) (pct : Int)
  | storeApproval (p : FormPreview)
  | finish (r : EngineResult)
  | cleanup
deriving DecidableEq, Repr

/-- Effect of one atomic action on the manager state.
* `setRunning`: line 163-164 (`job["status"] = RUNNING` + `status_change`).
* `emitProgress`: `send_progress` through `progress_callback` (lines 188-194):
  sets `progress_percentage` and `current_step`, broadcasts a progress event.
* `storeApproval`: `approval_callback` up to the suspension (lines 196-222):
  stores the preview in `approval_data`, sets status WAITING_FOR_APPROVAL,
  registers an unset `asyncio.Event` in `pending_approvals`, broadcasts
  `approval_required`.
* `finish`: lines 284-300: stores the result; on success status COMPLETED and
  progress 100 with a completion event, otherwise status FAILED with
  `error = result.get("error", "Unknown error")` and an error event.
* `cleanup`: the `finally` (lines 313-316): `pending_approvals.pop(job_id,
  None)` and `approval_data.pop(job_id, None)` (total, never raises).
The `none` job branches are unreachable in runs (the task returns early when
the job id is absent, before the `try`). -/
def applyAct : Act → MState → MState
  | .setRunning, s =>
    match s.job with
    | none => s
    | some j =>
      { s with
        job := some { j with status := .running }
        events := s.events ++
          [{ update_type := "status_change", message := "Job started"
             data := .statusData "running" }] }
  | .emitProgress msg pct, s =>
    match s.job with
    | none => s
    | some j =>
      { s with
        job := some { j with progress_percentage := pct, current_step := msg }
        events := s.events ++
          [{ update_type := "progress", message := msg
             data := .progressData pct }] }
  | .storeApproval p, s =>
    match s.job with
    | none => s
    | some j =>
      { s with
        preview := some p
        job := some { j with status := .waiting_for_approval }
        gate := some false
        events := s.events ++
          [{ update_type := "approval_required"
             message := "Human approval required before form submission"
             data := .previewData p }] }
  | .finish r, s =>
    match s.job with
    | none => s
    | some j =>
      if r.success then
        { s with
          job := some { j with result := some r, status := .completed,
                               progress_percentage := 100 }
          events := s.events ++
            [{ update_type := "completion", message := "Job completed successfully"
               data := .resultData r }] }
      else
        let err := r.error.getD "Unknown error"
        { s with
          job := some { j with result := some r, status := .failed,
                               error := some err }
          events := s.events ++
            [{ update_type := "error", message := "Job failed: " ++ err
               data := .errorData err }] }
  | .cleanup, s => { s with gate := none, preview := none }

/-- The progress emissions of `fill_generic_form_simple` on the path that
reaches "Form ready for human approval" (navigation succeeded).  Truthiness of
the optional payload pieces gates three extra emissions, as in the source. -/
def mainProgress (r : FormReq) : List (String × Int) :=
  [("Starting browser automation", 10),
   ("Browser initialized", 5),
   ("Navigating to target URL", 20),
   ("Analyzing page structure and form fields", 30),
   ("Detected contact form - mapping fields", 35),
   ("Filling reporter name field", 45),
   ("Filling email address field", 50),
   ("Filling phone number (if field exists)", 55),
   ("Filling company/organization field", 60),
   ("Filling subject/title field", 65),
   ("Filling main message/description", 70)]
  ++ (if r.reference_urls.isEmpty then [] else [("Adding reference URLs", 72)])
  ++ (if r.additional_comments = "" then []
      else [("Adding additional notes/comments", 74)])
  ++ [("Detecting additional form fields", 76)]
  ++ (if r.uploaded_files.isEmpty then []
      else [("Processing " ++ toString r.uploaded_files.length ++
             " uploaded file(s)", 77)])
  ++ [("Checking for CAPTCHAs", 78),
      ("CAPTCHA handling completed", 82),
      ("Form ready for human approval", 90)]

/-- Turns progress emissions into actions. -/
def emits (l : List (String × Int)) : List Act :=
  l.map (fun pr => .emitProgress pr.1 pr.2)

/-- `{"success": False, "error": "Invalid target URL"}` (line 282). -/
def invalidUrlResult : EngineResult := { success := false, error := some "Invalid target URL" }

/-- `{"success": False, "error": "Failed to initialize browser"}` (line 133). -/
def initFailResult : EngineResult :=
  { success := false, error := some "Failed to initialize browser" }

/-- Failure result from the agent's `except` clause (lines 271-274). -/
def navFailResult (e : String) : EngineResult :=
  { success := false, error := some ("Error during form filling: " ++ e) }

/-- Rejection result of the agent (lines 246-252). -/
def rejResult (r : FormReq) : EngineResult :=
  { success := false
    reason := some "Rejected by human reviewer"
    form_data := some (mkPreview r) }

/-- Success result of the agent (lines 262-269). -/
def okResult (r : FormReq) : EngineResult :=
  { success := true
    message := some (pyTitle r.form_type ++ " form submitted successfully (simulated)")
    form_data := some (mkPreview r)
    agent_result := some "Generic form filling workflow completed"
    submit_result := some "Form submission simulated with intelligent field mapping" }

/-- One owner-task run: the request plus the engine environment (whether the
browser constructor raises inside `initialize`, and whether `navigate`
raises). -/
structure TaskCfg where
  req : FormReq
  initFail : Option String := none
  navFail : Option String := none
deriving DecidableEq, Repr

/-- The run reaches `request_approval` (and hence creates a gate) iff the URL
check passes, the browser initialises, navigation succeeds and the request
demands approval. -/
def hasGate (c : TaskCfg) : Bool :=
  pyStartsWith c.req.target_url "http" && c.initFail.isNone && c.navFail.isNone
    && c.req.require_human_approval

/-- The actions of the task before the gate suspension (the whole run, when no
gate is created).  Mirrors `process_job_with_real_browser` around
`fill_generic_form_simple`. -/
def preScript (c : TaskCfg) : List Act :=
  if ¬ pyStartsWith c.req.target_url "http" then
    [.setRunning, .finish invalidUrlResult, .cleanup]
  else
    match c.initFail with
    | some e =>
      [Act.setRunning] ++
        emits [("Starting browser automation", 10),
               ("Failed to initialize browser: " ++ e, 0)] ++
        [Act.finish initFailResult, Act.cleanup]
    | none =>
      match c.navFail with
      | some e =>
        [Act.setRunning] ++
          emits [("Starting browser automation", 10),
                 ("Browser initialized", 5),
                 ("Navigating to target URL", 20),
                 ("Error during form filling: " ++ e, 0)] ++
          [Act.finish (navFailResult e), Act.cleanup]
      | none =>
        if c.req.require_human_approval then
          [Act.setRunning] ++
            emits (mainProgress c.req ++
                   [("Started continuous monitoring for approval period", 85)]) ++
            [Act.storeApproval (mkPreview c.req)]
        else
          [Act.setRunning] ++
            emits (mainProgress c.req ++
                   [("No approval required, submitting", 95),
                    ("Form submitted successfully", 100)]) ++
            [Act.finish (okResult c.req), Act.cleanup]

/-- The actions of the task after it resumes from the gate, branching on the
approval value it read (`approved = job.get("approved", False)`). -/
def postScript (c : TaskCfg) : Bool → List Act
  | true =>
    emits [("Approval received, submitting form", 95),
           ("Form submitted successfully", 100)] ++
      [Act.finish (okResult c.req), Act.cleanup]
  | false =>
    emits [("Submission rejected by human reviewer", 90)] ++
      [Act.finish (rejResult c.req), Act.cleanup]

/-- Program counter of the owning task: position in the pre-gate script
(`pre (preScript c).length` is the suspension on `event.wait()`), position in
the post-gate script tagged with the approval value read at resumption, or
finished. -/
inductive PC
  | pre (k : Nat)
  | post (a : Bool) (k : Nat)
  | done
deriving DecidableEq, Repr

/-- `approved = job.get("approved", False)` read when the task resumes. -/
def readApproved (s : MState) : Bool :=
  match s.job with
  | some j => j.approved.getD false
  | none => false

/-- One step of the owning task: `none` when the task is blocked on the gate
or finished. -/
def ownerStep (c : TaskCfg) : PC → MState → Option (PC × MState)
  | .pre k, s =>
    if h : k < (preScript c).length then
      some (if k + 1 = (preScript c).length ∧ hasGate c = false then .done
            else .pre (k + 1),
            applyAct (preScript c)[k] s)
    else if k = (preScript c).length ∧ s.gate = some true then
      some (.post (readApproved s) 0, s)
    else
      none
  | .post a k, s =>
    if h : k < (postScript c a).length then
      some (if k + 1 = (postScript c a).length then .done else .post a (k + 1),
            applyAct (postScript c a)[k] s)
    else
      none
  | .done, _ => none

/-- Runs `n` owner steps (a step that is blocked or finished is a no-op). -/
def stepN (c : TaskCfg) : Nat → PC × MState → PC × MState
  | 0, p => p
  | n + 1, p =>
    let q := stepN c n p
    match ownerStep c q.1 q.2 with
    | some q2 => q2
    | none => q

/-- Folds a list of actions over a state. -/
def applyActs (l : List Act) (s : MState) : MState :=
  l.foldl (fun t a => applyAct a t) s

/-- State right after `create_job` stored the record. -/
def initState (c : TaskCfg) : MState :=
  { job := some (create_job c.req), gate := none, preview := none, events := [] }

/-- Initial configuration: task at the top of its body, fresh job record. -/
def initPos (c : TaskCfg) : PC × MState :=
  (.pre 0, initState c)

/-- Reachable configurations of one job: owner-task steps, external
`approve_job` calls (at any suspension point), and an uncaught exception
escaping the `try` body (which runs the handler and the `finally`). -/
inductive Reach (c : TaskCfg) : PC × MState → Prop
  | init : Reach c (initPos c)
  | owner {p q} : Reach c p → ownerStep c p.1 p.2 = some q → Reach c q
  | env {p} (a : Bool) (re an : String) :
      Reach c p → Reach c (p.1, (approve_job p.2 a re an).2)
  | exn {p} (msg : String) :
      Reach c p → p.1 ≠ .done → Reach c (.done, applyAct .cleanup (applyExn p.2 msg))

/-! ### WebSocket connection manager (`ConnectionManager`) -/

/-- `ConnectionManager` state; websockets are identifiers. -/
structure ConnectionManager where
  job_connections : List (String × List Nat)
  global_connections : List Nat
deriving DecidableEq, Repr

/-- Association-list lookup for `job_connections`. -/
def lookupJC : List (String × List Nat) → String → Option (List Nat)
  | [], _ => none
  | (k, v) :: rest, jid => if k = jid then some v else lookupJC rest jid

/-- Association-list update for `job_connections`. -/
def setJC : List (String × List Nat) → String → List Nat → List (String × List Nat)
  | [], jid, v => [(jid, v)]
  | (k, w) :: rest, jid, v =>
    if k = jid then (jid, v) :: rest else (k, w) :: setJC rest jid v

/-- `ConnectionManager.connect_job` (`accept` abstracted). -/
def connect_job (cm : ConnectionManager) (ws : Nat) (jid : String) :
    ConnectionManager :=
  let l := (lookupJC cm.job_connections jid).getD []
  { cm with job_connections := setJC cm.job_connections jid (l ++ [ws]) }

/-- `ConnectionManager.connect_global`. -/
def connect_global (cm : ConnectionManager) (ws : Nat) : ConnectionManager :=
  { cm with global_connections := cm.global_connections ++ [ws] }

/-- `ConnectionManager.disconnect_job`: when the job id has a list, Python's
`list.remove` removes the first occurrence or raises `ValueError` (`none`);
when the job id has no list the body is skipped. -/
def disconnect_job (cm : ConnectionManager) (ws : Nat) (jid : String) :
    Option ConnectionManager :=
  match lookupJC cm.job_connections jid with
  | none => some cm
  | some l =>
    if ws ∈ l then
      some { cm with job_connections := setJC cm.job_connections jid (l.erase ws) }
    else
      none

/-- `ConnectionManager.disconnect_global`: membership-guarded removal, total. -/
def disconnect_global (cm : ConnectionManager) (ws : Nat) : ConnectionManager :=
  if ws ∈ cm.global_connections then
    { cm with global_connections := cm.global_connections.erase ws }
  else
    cm


/-- The pre-gate body before the approval request. -/
def gateBody (c : TaskCfg) : List Act :=
  [Act.setRunning] ++
    emits (mainProgress c.req ++
           [("Started continuous monitoring for approval period", 85)])


/-- The job status as seen through `jobs.get(job_id)`. -/
def jobStatus (s : MState) : Option JobStatus := s.job.map Job.status


/-- Gate/status coupling invariant: an undecided gate exists exactly while the
job is WAITING_FOR_APPROVAL, and then the owner sits at the gate suspension. -/
def InvGate (c : TaskCfg) (p : PC × MState) : Prop :=
  (p.2.gate = some false →
    jobStatus p.2 = some .waiting_for_approval ∧ p.1 = .pre (preScript c).length) ∧
  (jobStatus p.2 = some .waiting_for_approval → p.2.gate = some false)


/-- Once the owner task has finished, the gate and preview entries are gone. -/
def InvDone (p : PC × MState) : Prop :=
  p.1 = .done → p.2.gate = none ∧ p.2.preview = none


/-- The progress field and every published progress percentage lie in
`[0, 100]`. -/
def InvProg (p : PC × MState) : Prop :=
  (∀ j, p.2.job = some j →
    0 ≤ j.progress_percentage ∧ j.progress_percentage ≤ 100) ∧
  (∀ e ∈ p.2.events, ∀ n, e.data = .progressData n → 0 ≤ n ∧ n ≤ 100)


/-! ### Concrete scenario configurations -/

/-- Request of the approval scenario of the spec (preview subject "X"),
engine environment healthy. -/
def reqA : FormReq :=
  { target_url := "http://x", platform := "P", subject := "X",
    description := "d", require_human_approval := true }

/-- Approval-scenario run configuration. -/
def cfgA : TaskCfg := { req := reqA }

/-- Request submitted with `require_human_approval = false`. -/
def reqN : FormReq :=
  { target_url := "http://x", platform := "P", subject := "s",
    description := "d", require_human_approval := false }

/-- No-approval scenario run configuration. -/
def cfgN : TaskCfg := { req := reqN }

/-! ### Infrastructure lemmas about the machine -/

theorem applyActs_append (l1 l2 : List Act) (s : MState) :
    applyActs (l1 ++ l2) s = applyActs l2 (applyActs l1 s) := by
  simp [applyActs, List.foldl_append]

theorem applyActs_take_succ (l : List Act) (k : Nat) (h : k < l.length) (s : MState) :
    applyActs (l.take (k + 1)) s = applyAct l[k] (applyActs (l.take k) s) := by
  unfold applyActs
  rw [List.take_succ, List.getElem?_eq_getElem h, Option.toList_some,
    List.foldl_append]
  rfl

/-- Induction principle over reachable configurations. -/
theorem reach_ind {c : TaskCfg} {I : PC × MState → Prop}
    (h0 : I (initPos c))
    (hown : ∀ p q, I p → ownerStep c p.1 p.2 = some q → I q)
    (henv : ∀ p a re an, I p → I (p.1, (approve_job p.2 a re an).2))
    (hexn : ∀ p msg, I p → p.1 ≠ .done →
      I (.done, applyAct .cleanup (applyExn p.2 msg))) :
    ∀ p, Reach c p → I p := by
  intro p h
  induction h with
  | init => exact h0
  | owner hr hs ih => exact hown _ _ ih hs
  | env a re an hr ih => exact henv _ a re an ih
  | exn msg hr hne ih => exact hexn _ msg ih hne

/-- Owner steps stay within the reachable set. -/
theorem reach_stepN {c : TaskCfg} {p : PC × MState} (h : Reach c p) :
    ∀ n, Reach c (stepN c n p) := by
  intro n
  induction n with
  | zero => exact h
  | succ n ih =>
    show Reach c (stepN c (n + 1) p)
    simp only [stepN]
    cases hq : ownerStep c (stepN c n p).1 (stepN c n p).2 with
    | none => exact ih
    | some q2 => exact Reach.owner ih hq

/-- Invariance through owner steps only. -/
theorem stepN_inv {c : TaskCfg} {I : PC × MState → Prop} {p : PC × MState}
    (h0 : I p)
    (hstep : ∀ q r, I q → ownerStep c q.1 q.2 = some r → I r) :
    ∀ n, I (stepN c n p) := by
  intro n
  induction n with
  | zero => exact h0
  | succ n ih =>
    show I (stepN c (n + 1) p)
    simp only [stepN]
    cases hq : ownerStep c (stepN c n p).1 (stepN c n p).2 with
    | none => exact ih
    | some q2 => exact hstep _ _ ih hq

/-- Every successful owner step is a script action application, or the
resumption from the gate. -/
theorem ownerStep_cases {c : TaskCfg} {pc : PC} {s : MState} {q : PC × MState}
    (h : ownerStep c pc s = some q) :
    (∃ k, ∃ hk : k < (preScript c).length, pc = .pre k ∧
      q = ((if k + 1 = (preScript c).length ∧ hasGate c = false then .done
            else .pre (k + 1)), applyAct (preScript c)[k] s))
    ∨ (pc = .pre (preScript c).length ∧ s.gate = some true ∧
        q = (.post (readApproved s) 0, s))
    ∨ (∃ a k, ∃ hk : k < (postScript c a).length, pc = .post a k ∧
        q = ((if k + 1 = (postScript c a).length then .done else .post a (k + 1)),
             applyAct (postScript c a)[k] s)) := by
  cases pc with
  | pre k =>
    by_cases hk : k < (preScript c).length
    · left
      refine ⟨k, hk, rfl, ?_⟩
      simp only [ownerStep, dif_pos hk] at h
      exact (Option.some.injEq _ _).mp h |>.symm ▸ rfl
    · right; left
      simp only [ownerStep, dif_neg hk] at h
      by_cases hg : k = (preScript c).length ∧ s.gate = some true
      · simp only [if_pos hg] at h
        exact ⟨hg.1 ▸ rfl, hg.2, (Option.some.injEq _ _).mp h |>.symm⟩
      · simp [if_neg hg] at h
  | post a k =>
    right; right
    by_cases hk : k < (postScript c a).length
    · refine ⟨a, k, hk, rfl, ?_⟩
      simp only [ownerStep, dif_pos hk] at h
      exact ((Option.some.injEq _ _).mp h).symm
    · simp [ownerStep, dif_neg hk] at h
  | done => simp [ownerStep] at h

/-- Every action preserves existence of the job record. -/
theorem applyAct_job_isSome (a : Act) (s : MState) :
    (applyAct a s).job.isSome = s.job.isSome := by
  cases a <;> cases hj : s.job <;> simp [applyAct, hj] <;> split_ifs <;> simp

/-- No action touches the `approved` key of the job record. -/
theorem applyAct_approved (a : Act) (s : MState) :
    (applyAct a s).job.bind Job.approved = s.job.bind Job.approved := by
  cases a <;> cases hj : s.job <;> simp [applyAct, hj] <;> split_ifs <;> simp

/-- Action folds preserve existence of the job record. -/
theorem applyActs_job_isSome (l : List Act) (s : MState) :
    (applyActs l s).job.isSome = s.job.isSome := by
  induction l generalizing s with
  | nil => rfl
  | cons a l ih =>
    show (applyActs l (applyAct a s)).job.isSome = s.job.isSome
    rw [ih, applyAct_job_isSome]

/-- Action folds do not touch the `approved` key. -/
theorem applyActs_approved (l : List Act) (s : MState) :
    (applyActs l s).job.bind Job.approved = s.job.bind Job.approved := by
  induction l generalizing s with
  | nil => rfl
  | cons a l ih =>
    show (applyActs l (applyAct a s)).job.bind Job.approved = s.job.bind Job.approved
    rw [ih, applyAct_approved]

theorem preScript_length_pos (c : TaskCfg) : 0 < (preScript c).length := by
  unfold preScript
  split
  · simp
  · split
    · simp
    · split
      · simp
      · split <;> simp

/-- Deterministic run of the pre-gate script: after `k ≤ length` owner steps
from the initial configuration the task has applied the first `k` actions. -/
theorem stepN_pre (c : TaskCfg) :
    ∀ k, k ≤ (preScript c).length →
      stepN c k (initPos c) =
        ((if k = (preScript c).length ∧ hasGate c = false then PC.done
          else PC.pre k),
         applyActs ((preScript c).take k) (initState c)) := by
  intro k
  induction k with
  | zero =>
    intro _
    have hpos := preScript_length_pos c
    have : ¬ (0 = (preScript c).length ∧ hasGate c = false) := by
      rintro ⟨h0, -⟩; omega
    simp [stepN, initPos, applyActs, this]
  | succ k ih =>
    intro hk
    have hklt : k < (preScript c).length := by omega
    have hk' : k ≤ (preScript c).length := by omega
    have hne : ¬ (k = (preScript c).length ∧ hasGate c = false) := by
      rintro ⟨h0, -⟩; omega
    show (match ownerStep c (stepN c k (initPos c)).1 (stepN c k (initPos c)).2 with
          | some q2 => q2
          | none => stepN c k (initPos c)) = _
    rw [ih hk']
    simp only [if_neg hne]
    simp only [ownerStep, dif_pos hklt]
    rw [applyActs_take_succ _ _ hklt]

/-! ### Structure of the scripts -/

theorem mem_ite_nil {α : Type} {P : Prop} [Decidable P] {x y : α}
    (h : x ∈ (if P then ([] : List α) else [y])) : x = y := by
  split_ifs at h <;> simp_all

/-- Decomposition of `hasGate`. -/
theorem hasGate_iff (c : TaskCfg) :
    hasGate c = true ↔
      pyStartsWith c.req.target_url "http" = true ∧ c.initFail = none ∧
        c.navFail = none ∧ c.req.require_human_approval = true := by
  simp only [hasGate, Bool.and_eq_true, Option.isNone_iff_eq_none]
  tauto

/-- Pre-gate script on the invalid-URL branch. -/
theorem preScript_invalid {c : TaskCfg}
    (hurl : ¬ pyStartsWith c.req.target_url "http" = true) :
    preScript c = [.setRunning, .finish invalidUrlResult, .cleanup] := by
  unfold preScript
  simp [hurl]

/-- Pre-gate script when the browser fails to initialise. -/
theorem preScript_initFail {c : TaskCfg} {e : String}
    (hurl : pyStartsWith c.req.target_url "http" = true)
    (hi : c.initFail = some e) :
    preScript c =
      [Act.setRunning] ++
        emits [("Starting browser automation", 10),
               ("Failed to initialize browser: " ++ e, 0)] ++
        [Act.finish initFailResult, Act.cleanup] := by
  unfold preScript
  simp [hurl, hi]

/-- Pre-gate script when navigation raises. -/
theorem preScript_navFail {c : TaskCfg} {e : String}
    (hurl : pyStartsWith c.req.target_url "http" = true)
    (hi : c.initFail = none) (hn : c.navFail = some e) :
    preScript c =
      [Act.setRunning] ++
        emits [("Starting browser automation", 10),
               ("Browser initialized", 5),
               ("Navigating to target URL", 20),
               ("Error during form filling: " ++ e, 0)] ++
        [Act.finish (navFailResult e), Act.cleanup] := by
  unfold preScript
  simp [hurl, hi, hn]

/-- Pre-gate script on the no-approval success path. -/
theorem preScript_noappr {c : TaskCfg}
    (hurl : pyStartsWith c.req.target_url "http" = true)
    (hi : c.initFail = none) (hn : c.navFail = none)
    (ha : c.req.require_human_approval = false) :
    preScript c =
      [Act.setRunning] ++
        emits (mainProgress c.req ++
               [("No approval required, submitting", 95),
                ("Form submitted successfully", 100)]) ++
        [Act.finish (okResult c.req), Act.cleanup] := by
  unfold preScript
  simp [hurl, hi, hn, ha]

/-- On gate-creating runs the pre-gate script is the body followed by the
approval-request action. -/
theorem preScript_gate {c : TaskCfg} (h : hasGate c = true) :
    preScript c = gateBody c ++ [Act.storeApproval (mkPreview c.req)] := by
  rcases (hasGate_iff c).mp h with ⟨h1, h2, h3, h4⟩
  unfold preScript gateBody
  simp [h1, h2, h3, h4]

/-- All progress percentages on the main path lie in `[0, 100]`. -/
theorem mainProgress_range (r : FormReq) :
    ∀ x ∈ mainProgress r, 0 ≤ x.2 ∧ x.2 ≤ 100 := by
  intro x hx
  simp only [mainProgress, List.append_assoc, List.mem_append, List.mem_cons,
    List.not_mem_nil, or_false] at hx
  rcases hx with hx | hx | hx
  · rcases hx with h | h | h | h | h | h | h | h | h | h | h <;> subst h <;>
      exact ⟨by norm_num, by norm_num⟩
  · have := mem_ite_nil hx
    subst this
    exact ⟨by norm_num, by norm_num⟩
  · rcases hx with hx | hx
    · have := mem_ite_nil hx
      subst this
      exact ⟨by norm_num, by norm_num⟩
    · rcases hx with h | hx
      · subst h
        exact ⟨by norm_num, by norm_num⟩
      · rcases hx with hx | hx
        · have := mem_ite_nil hx
          subst this
          exact ⟨by norm_num, by norm_num⟩
        · rcases hx with h | h | h <;> subst h <;> exact ⟨by norm_num, by norm_num⟩

/-- The body contains only `setRunning` and progress emissions. -/
theorem gateBody_acts (c : TaskCfg) :
    ∀ a ∈ gateBody c, a = Act.setRunning ∨ ∃ m n, a = Act.emitProgress m n := by
  intro a ha
  simp only [gateBody, emits, List.mem_append, List.mem_cons, List.mem_map,
    List.not_mem_nil, or_false, List.mem_singleton] at ha
  rcases ha with h | ⟨pr, _, he⟩
  · exact Or.inl h
  · exact Or.inr ⟨pr.1, pr.2, he.symm⟩

/-- Every progress emission in the body is within `[0, 100]`. -/
theorem gateBody_emit_range (c : TaskCfg) :
    ∀ m n, Act.emitProgress m n ∈ gateBody c → 0 ≤ n ∧ n ≤ 100 := by
  intro m n hx
  simp only [gateBody, emits, List.mem_append, List.mem_cons, List.mem_map,
    List.not_mem_nil, or_false, List.mem_singleton] at hx
  rcases hx with h | ⟨pr, hpr, he⟩
  · simp at h
  · rcases hpr with hpr | hpr
    · have := mainProgress_range c.req pr hpr
      cases pr
      simp only [Act.emitProgress.injEq] at he
      omega
    · subst hpr
      simp only [Act.emitProgress.injEq] at he
      omega

/-- Every progress emission in the pre-gate script is within `[0, 100]`. -/
theorem preScript_emit_range (c : TaskCfg) :
    ∀ m n, Act.emitProgress m n ∈ preScript c → 0 ≤ n ∧ n ≤ 100 := by
  intro m n hx
  by_cases hurl : pyStartsWith c.req.target_url "http" = true
  · rcases hi : c.initFail with _ | e
    · rcases hn : c.navFail with _ | e
      · rcases ha : c.req.require_human_approval with _ | _
        · rw [preScript_noappr hurl hi hn ha] at hx
          simp only [emits, List.mem_append, List.mem_cons, List.mem_map,
            List.not_mem_nil, or_false, List.mem_singleton] at hx
          rcases hx with (h | ⟨pr, hpr, he⟩) | h
          · simp at h
          · rcases hpr with hpr | hpr
            · have := mainProgress_range c.req pr hpr
              cases pr
              simp only [Act.emitProgress.injEq] at he
              omega
            · rcases hpr with h1 | h1 <;> simp_all <;> omega
          · rcases h with h | h <;> simp at h
        · have hg : hasGate c = true := (hasGate_iff c).mpr ⟨hurl, hi, hn, ha⟩
          rw [preScript_gate hg] at hx
          simp only [List.mem_append, List.mem_singleton] at hx
          rcases hx with h | h
          · exact gateBody_emit_range c m n h
          · simp at h
      · rw [preScript_navFail hurl hi hn] at hx
        simp only [emits, List.mem_append, List.mem_cons, List.mem_map,
          List.not_mem_nil, or_false, List.mem_singleton] at hx
        rcases hx with (h | ⟨pr, hpr, he⟩) | h
        · simp at h
        · rcases hpr with h1 | h1 | h1 | h1 <;> simp_all <;> omega
        · rcases h with h | h <;> simp at h
    · rw [preScript_initFail hurl hi] at hx
      simp only [emits, List.mem_append, List.mem_cons, List.mem_map,
        List.not_mem_nil, or_false, List.mem_singleton] at hx
      rcases hx with (h | ⟨pr, hpr, he⟩) | h
      · simp at h
      · rcases hpr with h1 | h1 <;> simp_all <;> omega
      · rcases h with h | h <;> simp at h
  · rw [preScript_invalid hurl] at hx
    simp [invalidUrlResult] at hx

/-- Every progress emission in the post-gate scripts is within `[0, 100]`. -/
theorem postScript_emit_range (c : TaskCfg) (a : Bool) :
    ∀ m n, Act.emitProgress m n ∈ postScript c a → 0 ≤ n ∧ n ≤ 100 := by
  intro m n hx
  cases a <;>
    simp only [postScript, emits, List.mem_append, List.mem_cons,
      List.mem_map, List.not_mem_nil, or_false, List.mem_singleton] at hx <;>
    rcases hx with ⟨pr, hpr, he⟩ | h
  · subst hpr
    simp only [Act.emitProgress.injEq] at he
    omega
  · rcases h with h | h <;> simp at h
  · rcases hpr with h | h <;> subst h <;>
      simp only [Act.emitProgress.injEq] at he <;> omega
  · rcases h with h | h <;> simp at h

/-- A `storeApproval` action occurs only in gate-creating runs, and only as
the last action of the pre-gate script. -/
theorem store_pos {c : TaskCfg} {k : Nat} {p : FormPreview}
    (h : k < (preScript c).length)
    (he : (preScript c)[k] = Act.storeApproval p) :
    hasGate c = true ∧ k + 1 = (preScript c).length := by
  have hmem : Act.storeApproval p ∈ preScript c := he ▸ List.getElem_mem h
  by_cases hg : hasGate c = true
  · refine ⟨hg, ?_⟩
    have hlen : (preScript c).length = (gateBody c).length + 1 := by
      rw [preScript_gate hg]
      simp
    by_cases hk : k < (gateBody c).length
    · exfalso
      have he2 := List.getElem_of_eq (preScript_gate hg) h
      rw [he, List.getElem_append_left hk] at he2
      have := gateBody_acts c _ (he2 ▸ List.getElem_mem hk)
      rcases this with h1 | ⟨m, n, h1⟩ <;> simp at h1
    · omega
  · exfalso
    by_cases hurl : pyStartsWith c.req.target_url "http" = true
    · rcases hi : c.initFail with _ | e
      · rcases hn : c.navFail with _ | e
        · rcases ha : c.req.require_human_approval with _ | _
          · rw [preScript_noappr hurl hi hn ha] at hmem
            simp [emits] at hmem
          · exact hg ((hasGate_iff c).mpr ⟨hurl, hi, hn, ha⟩)
        · rw [preScript_navFail hurl hi hn] at hmem
          simp [emits] at hmem
      · rw [preScript_initFail hurl hi] at hmem
        simp [emits] at hmem
    · rw [preScript_invalid hurl] at hmem
      simp at hmem

/-- On runs that create no gate the pre-gate script ends with the `finally`
cleanup. -/
theorem noGate_last_cleanup {c : TaskCfg} (h : hasGate c = false) :
    ∃ l, preScript c = l ++ [Act.cleanup] := by
  by_cases hurl : pyStartsWith c.req.target_url "http" = true
  · rcases hi : c.initFail with _ | e
    · rcases hn : c.navFail with _ | e
      · rcases ha : c.req.require_human_approval with _ | _
        · exact ⟨[Act.setRunning] ++
            emits (mainProgress c.req ++
                   [("No approval required, submitting", 95),
                    ("Form submitted successfully", 100)]) ++
            [Act.finish (okResult c.req)],
            by rw [preScript_noappr hurl hi hn ha]; simp⟩
        · exact absurd ((hasGate_iff c).mpr ⟨hurl, hi, hn, ha⟩) (by simp [h])
      · exact ⟨[Act.setRunning] ++
          emits [("Starting browser automation", 10),
                 ("Browser initialized", 5),
                 ("Navigating to target URL", 20),
                 ("Error during form filling: " ++ e, 0)] ++
          [Act.finish (navFailResult e)],
          by rw [preScript_navFail hurl hi hn]; simp⟩
    · exact ⟨[Act.setRunning] ++
        emits [("Starting browser automation", 10),
               ("Failed to initialize browser: " ++ e, 0)] ++
        [Act.finish initFailResult],
        by rw [preScript_initFail hurl hi]; simp⟩
  · exact ⟨[Act.setRunning, Act.finish invalidUrlResult],
      by rw [preScript_invalid hurl]; rfl⟩

/-- The two post-gate scripts end with the `finally` cleanup. -/
theorem postScript_last_cleanup (c : TaskCfg) (a : Bool) :
    ∃ l, postScript c a = l ++ [Act.cleanup] := by
  cases a
  · exact ⟨emits [("Submission rejected by human reviewer", 90)] ++
      [Act.finish (rejResult c.req)], by simp [postScript]⟩
  · exact ⟨emits [("Approval received, submitting form", 95),
                  ("Form submitted successfully", 100)] ++
      [Act.finish (okResult c.req)], by simp [postScript]⟩

theorem getElem_last_append {α : Type} (l : List α) (x : α) (k : Nat)
    (h : k < (l ++ [x]).length) (hk : k = l.length) : (l ++ [x])[k] = x := by
  subst hk
  rw [List.getElem_append_right (le_refl _)]
  simp
/-- The post-gate scripts contain only emissions, a finish and the cleanup. -/
theorem postScript_acts (c : TaskCfg) (a : Bool) :
    ∀ x ∈ postScript c a,
      (∃ m n, x = Act.emitProgress m n) ∨ (∃ r, x = Act.finish r) ∨
        x = Act.cleanup := by
  intro x hx
  cases a <;>
    simp only [postScript, emits, List.mem_append, List.mem_cons,
      List.mem_map, List.not_mem_nil, or_false, List.mem_singleton] at hx
  · rcases hx with ⟨pr, _, he⟩ | h | h
    · exact Or.inl ⟨pr.1, pr.2, he.symm⟩
    · exact Or.inr (Or.inl ⟨_, h⟩)
    · exact Or.inr (Or.inr h)
  · rcases hx with ⟨pr, _, he⟩ | h | h
    · exact Or.inl ⟨pr.1, pr.2, he.symm⟩
    · exact Or.inr (Or.inl ⟨_, h⟩)
    · exact Or.inr (Or.inr h)

theorem invGate_holds (c : TaskCfg) : ∀ p, Reach c p → InvGate c p := by
  refine reach_ind ?_ ?_ ?_ ?_
  · constructor
    · intro hg
      simp [initPos, initState] at hg
    · intro hs
      simp [initPos, initState, jobStatus, create_job] at hs
  · rintro ⟨pc, s⟩ q ⟨ihG, ihW⟩ hstep
    rcases ownerStep_cases hstep with
      ⟨k, hk, hpc, hq⟩ | ⟨hpc, hg, hq⟩ | ⟨a, k, hk, hpc, hq⟩
    · -- a pre-script action is applied at position k < length
      subst hq
      have hnotgate : s.gate ≠ some false := by
        intro hgf
        have := (ihG hgf).2
        rw [hpc] at this
        have : k = (preScript c).length := by injection this
        omega
      have hnotwait : jobStatus s ≠ some .waiting_for_approval := by
        intro hw
        exact hnotgate (ihW hw)
      cases hact : (preScript c)[k] with
      | setRunning =>
        cases hj : s.job with
        | none =>
          constructor
          · intro hgf
            simp [applyAct, hj] at hgf
            exact absurd hgf hnotgate
          · intro hw
            simp [applyAct, jobStatus, hj] at hw
        | some j =>
          constructor
          · intro hgf
            simp [applyAct, hj] at hgf
            exact absurd hgf hnotgate
          · intro hw
            simp [applyAct, jobStatus, hj] at hw
      | emitProgress m n =>
        cases hj : s.job with
        | none =>
          constructor
          · intro hgf
            simp [applyAct, hj] at hgf
            exact absurd hgf hnotgate
          · intro hw
            simp [applyAct, jobStatus, hj] at hw
        | some j =>
          constructor
          · intro hgf
            simp [applyAct, hj] at hgf
            exact absurd hgf hnotgate
          · intro hw
            simp only [applyAct, hj, jobStatus, Option.map_some] at hw
            have : j.status = .waiting_for_approval := by injection hw
            exact absurd (ihW (by simp [jobStatus, hj, this])) hnotgate
      | storeApproval pv =>
        have hpos := store_pos hk hact
        cases hj : s.job with
        | none =>
          constructor
          · intro hgf
            simp [applyAct, hj] at hgf
            exact absurd hgf hnotgate
          · intro hw
            simp only [applyAct, hj, hact] at hw
            exact absurd hw hnotwait
        | some j =>
          constructor
          · intro _
            constructor
            · simp [applyAct, hj, jobStatus]
            · have hcond : ¬ (k + 1 = (preScript c).length ∧ hasGate c = false) := by
                rintro ⟨-, hgf⟩
                rw [hpos.1] at hgf
                exact Bool.noConfusion hgf
              simp only [if_neg hcond]
              rw [hpos.2]
          · intro _
            simp [applyAct, hj]
      | finish r =>
        cases hj : s.job with
        | none =>
          constructor
          · intro hgf
            simp [applyAct, hj] at hgf
            exact absurd hgf hnotgate
          · intro hw
            simp only [applyAct, hj, hact] at hw
            exact absurd hw hnotwait
        | some j =>
          constructor
          · intro hgf
            by_cases hrs : r.success = true <;>
              simp [applyAct, hj, hrs] at hgf <;> exact absurd hgf hnotgate
          · intro hw
            by_cases hrs : r.success = true <;>
              simp [applyAct, jobStatus, hj, hrs] at hw
      | cleanup =>
        constructor
        · intro hgf
          simp [applyAct] at hgf
        · intro hw
          have : jobStatus s = some .waiting_for_approval := by
            simpa [applyAct, jobStatus] using hw
          exact absurd this hnotwait
    · -- resumption from the gate: state unchanged
      subst hq
      constructor
      · intro hgf
        rw [hg] at hgf
        exact Bool.noConfusion (Option.some.inj hgf)
      · intro hw
        rw [ihW hw] at hg
        exact Bool.noConfusion (Option.some.inj hg)
    · -- a post-script action is applied
      subst hq
      have hnotgate : s.gate ≠ some false := by
        intro hgf
        have := (ihG hgf).2
        rw [hpc] at this
        exact PC.noConfusion this
      have hnotwait : jobStatus s ≠ some .waiting_for_approval := by
        intro hw
        exact hnotgate (ihW hw)
      rcases postScript_acts c a _ (List.getElem_mem hk) with
        ⟨m, n, hact⟩ | ⟨r, hact⟩ | hact <;> rw [hact]
      · cases hj : s.job with
        | none =>
          constructor
          · intro hgf
            simp [applyAct, hj] at hgf
            exact absurd hgf hnotgate
          · intro hw
            simp [applyAct, jobStatus, hj] at hw
        | some j =>
          constructor
          · intro hgf
            simp [applyAct, hj] at hgf
            exact absurd hgf hnotgate
          · intro hw
            simp only [applyAct, hj, jobStatus, Option.map_some] at hw
            have : j.status = .waiting_for_approval := by injection hw
            exact absurd (ihW (by simp [jobStatus, hj, this])) hnotgate
      · cases hj : s.job with
        | none =>
          constructor
          · intro hgf
            simp [applyAct, hj] at hgf
            exact absurd hgf hnotgate
          · intro hw
            simp only [applyAct, hj] at hw
            exact absurd hw hnotwait
        | some j =>
          constructor
          · intro hgf
            by_cases hrs : r.success = true <;>
              simp [applyAct, hj, hrs] at hgf <;> exact absurd hgf hnotgate
          · intro hw
            by_cases hrs : r.success = true <;>
              simp [applyAct, jobStatus, hj, hrs] at hw
      · constructor
        · intro hgf
          simp [applyAct] at hgf
        · intro hw
          have : jobStatus s = some .waiting_for_approval := by
            simpa [applyAct, jobStatus] using hw
          exact absurd this hnotwait
  · rintro ⟨pc, s⟩ a re an ⟨ihG, ihW⟩
    cases hj : s.job with
    | none =>
      simp only [approve_job, hj]
      exact ⟨ihG, ihW⟩
    | some j =>
      cases hg : s.gate with
      | none =>
        simp only [approve_job, hj, hg]
        exact ⟨ihG, ihW⟩
      | some b =>
        constructor
        · intro hgf
          simp [approve_job, hj, hg] at hgf
        · intro hw
          simp only [approve_job, hj, hg, jobStatus, Option.map_some] at hw
          rcases hw with hw
          by_cases ha : a = true <;> simp [ha] at hw
  · rintro ⟨pc, s⟩ msg ⟨ihG, ihW⟩ hne
    constructor
    · intro hgf
      simp [applyAct] at hgf
    · intro hw
      cases hj : s.job with
      | none => simp [applyAct, applyExn, jobStatus, hj] at hw
      | some j => simp [applyAct, applyExn, jobStatus, hj] at hw

/-- A decision call on a state without a gate entry is a pure no-op. -/
theorem approve_job_gate_none {s : MState} (h : s.gate = none)
    (a : Bool) (re an : String) : approve_job s a re an = (false, s) := by
  cases hj : s.job <;> simp [approve_job, hj, h]

theorem invDone_holds (c : TaskCfg) : ∀ p, Reach c p → InvDone p := by
  refine reach_ind ?_ ?_ ?_ ?_
  · intro h
    simp [initPos] at h
  · rintro ⟨pc, s⟩ q ih hstep
    rcases ownerStep_cases hstep with
      ⟨k, hk, hpc, hq⟩ | ⟨hpc, hg, hq⟩ | ⟨a, k, hk, hpc, hq⟩
    · subst hq
      by_cases hcond : k + 1 = (preScript c).length ∧ hasGate c = false
      · obtain ⟨l, hl⟩ := noGate_last_cleanup hcond.2
        have hlen : (preScript c).length = l.length + 1 := by
          rw [hl]
          simp
        have hklt : k < (l ++ [Act.cleanup]).length := by
          simp only [List.length_append, List.length_singleton]
          omega
        have hact : (preScript c)[k] = Act.cleanup := by
          rw [List.getElem_of_eq hl hk]
          exact getElem_last_append l Act.cleanup k hklt (by omega)
        intro _
        rw [hact]
        simp [applyAct]
      · intro hdone
        simp only [if_neg hcond] at hdone
        exact PC.noConfusion hdone
    · subst hq
      intro hdone
      exact PC.noConfusion hdone
    · subst hq
      by_cases hcond : k + 1 = (postScript c a).length
      · obtain ⟨l, hl⟩ := postScript_last_cleanup c a
        have hlen : (postScript c a).length = l.length + 1 := by
          rw [hl]
          simp
        have hklt : k < (l ++ [Act.cleanup]).length := by
          simp only [List.length_append, List.length_singleton]
          omega
        have hact : (postScript c a)[k] = Act.cleanup := by
          rw [List.getElem_of_eq hl hk]
          exact getElem_last_append l Act.cleanup k hklt (by omega)
        intro _
        rw [hact]
        simp [applyAct]
      · intro hdone
        simp only [if_neg hcond] at hdone
        exact PC.noConfusion hdone
  · rintro ⟨pc, s⟩ a re an ih hdone
    have hs := ih hdone
    rw [approve_job_gate_none hs.1 a re an]
    exact hs
  · rintro ⟨pc, s⟩ msg ih hne _
    simp [applyAct]

theorem progEvents_snoc {evs : List JEvent} {ev : JEvent}
    (h : ∀ e ∈ evs, ∀ n, e.data = .progressData n → 0 ≤ n ∧ n ≤ 100)
    (hev : ∀ n, ev.data = .progressData n → 0 ≤ n ∧ n ≤ 100) :
    ∀ e ∈ evs ++ [ev], ∀ n, e.data = .progressData n → 0 ≤ n ∧ n ≤ 100 := by
  intro e he
  rcases List.mem_append.mp he with h1 | h1
  · exact h e h1
  · simp only [List.mem_singleton] at h1
    subst h1
    exact hev

/-- Closure of `InvProg` under one action whose emissions are bounded. -/
theorem invProg_applyAct {s : MState} (a : Act)
    (ih1 : ∀ j, s.job = some j →
      0 ≤ j.progress_percentage ∧ j.progress_percentage ≤ 100)
    (ih2 : ∀ e ∈ s.events, ∀ n, e.data = .progressData n → 0 ≤ n ∧ n ≤ 100)
    (hb : ∀ m n, a = Act.emitProgress m n → 0 ≤ n ∧ n ≤ 100) :
    (∀ j, (applyAct a s).job = some j →
      0 ≤ j.progress_percentage ∧ j.progress_percentage ≤ 100) ∧
    (∀ e ∈ (applyAct a s).events, ∀ n,
      e.data = .progressData n → 0 ≤ n ∧ n ≤ 100) := by
  cases hj : s.job with
  | none =>
    cases a with
    | cleanup =>
      exact ⟨fun j hj2 => ih1 j (by simpa [applyAct] using hj2),
             fun e he => ih2 e (by simpa [applyAct] using he)⟩
    | setRunning =>
      have hs : applyAct Act.setRunning s = s := by simp [applyAct, hj]
      rw [hs]
      exact ⟨ih1, ih2⟩
    | emitProgress m n =>
      have hs : applyAct (Act.emitProgress m n) s = s := by simp [applyAct, hj]
      rw [hs]
      exact ⟨ih1, ih2⟩
    | storeApproval p =>
      have hs : applyAct (Act.storeApproval p) s = s := by simp [applyAct, hj]
      rw [hs]
      exact ⟨ih1, ih2⟩
    | finish r =>
      have hs : applyAct (Act.finish r) s = s := by simp [applyAct, hj]
      rw [hs]
      exact ⟨ih1, ih2⟩
  | some j =>
    have hj1 := ih1 j hj
    cases a with
    | setRunning =>
      refine ⟨?_, ?_⟩
      · intro j2 hj2
        simp only [applyAct, hj, Option.some.injEq] at hj2
        subst hj2
        simpa using hj1
      · have hev : (applyAct Act.setRunning s).events =
            s.events ++ [{ update_type := "status_change", message := "Job started",
                           data := .statusData "running" }] := by
          simp [applyAct, hj]
        rw [hev]
        refine progEvents_snoc ih2 ?_
        intro n hn
        simp at hn
    | emitProgress m n =>
      have hn := hb m n rfl
      refine ⟨?_, ?_⟩
      · intro j2 hj2
        simp only [applyAct, hj, Option.some.injEq] at hj2
        subst hj2
        simpa using hn
      · have hev : (applyAct (Act.emitProgress m n) s).events =
            s.events ++ [{ update_type := "progress", message := m,
                           data := .progressData n }] := by
          simp [applyAct, hj]
        rw [hev]
        refine progEvents_snoc ih2 ?_
        intro n2 hn2
        simp only [EventData.progressData.injEq] at hn2
        omega
    | storeApproval p =>
      refine ⟨?_, ?_⟩
      · intro j2 hj2
        simp only [applyAct, hj, Option.some.injEq] at hj2
        subst hj2
        simpa using hj1
      · have hev : (applyAct (Act.storeApproval p) s).events =
            s.events ++ [{ update_type := "approval_required",
                           message := "Human approval required before form submission",
                           data := .previewData p }] := by
          simp [applyAct, hj]
        rw [hev]
        refine progEvents_snoc ih2 ?_
        intro n hn
        simp at hn
    | finish r =>
      by_cases hrs : r.success = true
      · refine ⟨?_, ?_⟩
        · intro j2 hj2
          simp only [applyAct, hj] at hj2
          rw [if_pos hrs, Option.some.injEq] at hj2
          subst hj2
          constructor <;> simp
        · have hev : (applyAct (Act.finish r) s).events =
              s.events ++ [{ update_type := "completion",
                             message := "Job completed successfully",
                             data := .resultData r }] := by
            simp only [applyAct, hj]
            rw [if_pos hrs]
          rw [hev]
          refine progEvents_snoc ih2 ?_
          intro n hn
          simp at hn
      · refine ⟨?_, ?_⟩
        · intro j2 hj2
          simp only [applyAct, hj] at hj2
          rw [if_neg hrs, Option.some.injEq] at hj2
          subst hj2
          simpa using hj1
        · have hev : (applyAct (Act.finish r) s).events =
              s.events ++ [{ update_type := "error",
                             message := "Job failed: " ++ r.error.getD "Unknown error",
                             data := .errorData (r.error.getD "Unknown error") }] := by
            simp only [applyAct, hj]
            rw [if_neg hrs]
          rw [hev]
          refine progEvents_snoc ih2 ?_
          intro n hn
          simp at hn
    | cleanup =>
      exact ⟨fun j2 hj2 => ih1 j2 (by simpa [applyAct] using hj2),
             fun e he => ih2 e (by simpa [applyAct] using he)⟩

theorem invProg_holds (c : TaskCfg) : ∀ p, Reach c p → InvProg p := by
  refine reach_ind ?_ ?_ ?_ ?_
  · constructor
    · intro j hj
      simp only [initPos, initState, Option.some.injEq] at hj
      subst hj
      simp [create_job]
    · intro e he
      simp [initPos, initState] at he
  · rintro ⟨pc, s⟩ q ⟨ih1, ih2⟩ hstep
    rcases ownerStep_cases hstep with
      ⟨k, hk, hpc, hq⟩ | ⟨hpc, hg, hq⟩ | ⟨a, k, hk, hpc, hq⟩
    · subst hq
      exact invProg_applyAct _ ih1 ih2 (fun m n he =>
        preScript_emit_range c m n (he ▸ List.getElem_mem hk))
    · subst hq
      exact ⟨ih1, ih2⟩
    · subst hq
      exact invProg_applyAct _ ih1 ih2 (fun m n he =>
        postScript_emit_range c a m n (he ▸ List.getElem_mem hk))
  · rintro ⟨pc, s⟩ a re an ⟨ih1, ih2⟩
    cases hj : s.job with
    | none =>
      simp only [approve_job, hj]
      exact ⟨ih1, ih2⟩
    | some j =>
      cases hg : s.gate with
      | none =>
        simp only [approve_job, hj, hg]
        exact ⟨ih1, ih2⟩
      | some b =>
        constructor
        · intro j2 hj2
          simp only [approve_job, hj, hg, Option.some.injEq] at hj2
          subst hj2
          simpa using ih1 j hj
        · intro e he
          cases a <;> simp only [approve_job, hj, hg] at he <;>
            refine progEvents_snoc ih2 ?_ e he <;> intro n hn <;> simp at hn
  · rintro ⟨pc, s⟩ msg ⟨ih1, ih2⟩ hne
    cases hj : s.job with
    | none =>
      refine ⟨?_, ?_⟩
      · intro j2 hj2
        rw [show (applyAct .cleanup (applyExn s msg)).job = s.job from by
          simp [applyExn, applyAct, hj]] at hj2
        exact ih1 j2 hj2
      · intro e he
        rw [show (applyAct .cleanup (applyExn s msg)).events = s.events from by
          simp [applyExn, applyAct, hj]] at he
        exact ih2 e he
    | some j =>
      refine ⟨?_, ?_⟩
      · intro j2 hj2
        simp only [applyExn, applyAct, hj, Option.some.injEq] at hj2
        subst hj2
        simpa using ih1 j hj
      · intro e he
        simp only [applyExn, applyAct, hj] at he
        refine progEvents_snoc ih2 ?_ e he
        intro n hn
        simp at hn

/-! ### Deterministic runs -/

theorem stepN_add_one (c : TaskCfg) (n : Nat) (p : PC × MState) :
    stepN c (n + 1) p =
      (match ownerStep c (stepN c n p).1 (stepN c n p).2 with
       | some q => q
       | none => stepN c n p) := rfl

theorem postScript_false_eq (c : TaskCfg) :
    postScript c false =
      [Act.emitProgress "Submission rejected by human reviewer" 90,
       Act.finish (rejResult c.req), Act.cleanup] := rfl

theorem postScript_true_eq (c : TaskCfg) :
    postScript c true =
      [Act.emitProgress "Approval received, submitting form" 95,
       Act.emitProgress "Form submitted successfully" 100,
       Act.finish (okResult c.req), Act.cleanup] := rfl

/-- Shape of the actions on a gate-creating run. -/
theorem gate_pre_acts {c : TaskCfg} (h : hasGate c = true) :
    ∀ a ∈ preScript c,
      a = Act.setRunning ∨ (∃ m n, a = Act.emitProgress m n) ∨
        a = Act.storeApproval (mkPreview c.req) := by
  rw [preScript_gate h]
  intro a ha
  rcases List.mem_append.mp ha with h1 | h1
  · rcases gateBody_acts c a h1 with h2 | h2
    · exact Or.inl h2
    · exact Or.inr (Or.inl h2)
  · simp only [List.mem_singleton] at h1
    exact Or.inr (Or.inr h1)

/-- Shape of the actions on the no-approval success run. -/
theorem noappr_acts {c : TaskCfg}
    (hurl : pyStartsWith c.req.target_url "http" = true)
    (hi : c.initFail = none) (hn : c.navFail = none)
    (ha : c.req.require_human_approval = false) :
    ∀ a ∈ preScript c,
      a = Act.setRunning ∨ (∃ m n, a = Act.emitProgress m n) ∨
        a = Act.finish (okResult c.req) ∨ a = Act.cleanup := by
  rw [preScript_noappr hurl hi hn ha]
  intro a ha2
  simp only [emits, List.mem_append, List.mem_cons, List.mem_map,
    List.not_mem_nil, or_false, List.mem_singleton] at ha2
  rcases ha2 with (h1 | ⟨pr, _, he⟩) | h1 | h1
  · exact Or.inl h1
  · exact Or.inr (Or.inl ⟨pr.1, pr.2, he.symm⟩)
  · exact Or.inr (Or.inr (Or.inl h1))
  · exact Or.inr (Or.inr (Or.inr h1))

/-- The only finish on the rejection path carries the rejection result. -/
theorem postScript_false_finish {c : TaskCfg} {r : EngineResult}
    (h : Act.finish r ∈ postScript c false) : r = rejResult c.req := by
  rw [postScript_false_eq] at h
  simp only [List.mem_cons, List.not_mem_nil, or_false] at h
  rcases h with h | h | h
  · exact Act.noConfusion h
  · injection h
  · exact Act.noConfusion h

/-- State at the gate suspension: the job is WAITING_FOR_APPROVAL with the
`approved` key still absent, and the gate entry is unset. -/
theorem sGate_spec {c : TaskCfg} (h : hasGate c = true) :
    ∃ j, (applyActs (preScript c) (initState c)).job = some j ∧
      j.status = .waiting_for_approval ∧ j.approved = none ∧
      (applyActs (preScript c) (initState c)).gate = some false := by
  rw [preScript_gate h, applyActs_append]
  set sB := applyActs (gateBody c) (initState c) with hsB
  have hsome : sB.job.isSome = true := by
    rw [hsB, applyActs_job_isSome]
    simp [initState]
  obtain ⟨jB, hjB⟩ := Option.isSome_iff_exists.mp hsome
  have happ : sB.job.bind Job.approved = none := by
    rw [hsB, applyActs_approved]
    simp [initState, create_job]
  rw [hjB] at happ
  simp only [Option.some_bind] at happ
  refine ⟨{ jB with status := .waiting_for_approval }, ?_, rfl, happ, ?_⟩
  · simp [applyActs, applyAct, hjB]
  · simp [applyActs, applyAct, hjB]

theorem applyAct_cleanup_job (s : MState) : (applyAct Act.cleanup s).job = s.job := rfl

theorem applyAct_emit_status (m : String) (n : Int) (s : MState) :
    jobStatus (applyAct (Act.emitProgress m n) s) = jobStatus s := by
  cases hj : s.job <;> simp [applyAct, jobStatus, hj]

theorem finish_fail_spec {r : EngineResult} (hr : r.success = false) {s : MState}
    {j : Job} (hj : s.job = some j) :
    jobStatus (applyAct (Act.finish r) s) = some .failed ∧
    (applyAct (Act.finish r) s).job.bind Job.error =
      some (r.error.getD "Unknown error") := by
  constructor <;> simp [applyAct, jobStatus, hj, hr]

/-- General rejection scenario: run to the gate, decide `approved=false`, let
the owner task finish.  The decision marks the job REJECTED, but the final
state of the run is FAILED with `error = "Unknown error"`; the job is never
COMPLETED at any step of either phase. -/
theorem rejectRun (c : TaskCfg) (re an : String) (h : hasGate c = true) :
    (approve_job (stepN c (preScript c).length (initPos c)).2 false re an).1 = true ∧
    jobStatus (approve_job (stepN c (preScript c).length (initPos c)).2 false re an).2 =
      some .rejected ∧
    (stepN c 4 ((stepN c (preScript c).length (initPos c)).1,
      (approve_job (stepN c (preScript c).length (initPos c)).2 false re an).2)).1 =
      .done ∧
    jobStatus (stepN c 4 ((stepN c (preScript c).length (initPos c)).1,
      (approve_job (stepN c (preScript c).length (initPos c)).2 false re an).2)).2 =
      some .failed ∧
    ((stepN c 4 ((stepN c (preScript c).length (initPos c)).1,
      (approve_job (stepN c (preScript c).length (initPos c)).2 false re an).2)).2.job.bind
        Job.error) = some "Unknown error" ∧
    (∀ k, jobStatus (stepN c k (initPos c)).2 ≠ some .completed) ∧
    (∀ k, jobStatus (stepN c k ((stepN c (preScript c).length (initPos c)).1,
      (approve_job (stepN c (preScript c).length (initPos c)).2 false re an).2)).2 ≠
        some .completed) := by
  have hL := stepN_pre c (preScript c).length le_rfl
  have hgne : ¬ ((preScript c).length = (preScript c).length ∧ hasGate c = false) := by
    rintro ⟨-, hf⟩
    rw [h] at hf
    exact Bool.noConfusion hf
  rw [if_neg hgne, List.take_length] at hL
  obtain ⟨jG, hjG, hjGs, hjGa, hgG⟩ := sGate_spec h
  have hr1 : (approve_job (applyActs (preScript c) (initState c)) false re an).1 = true := by
    simp [approve_job, hjG, hgG]
  have hjob1 : (approve_job (applyActs (preScript c) (initState c)) false re an).2.job =
      some { jG with
             approved := some false
             approval_reason := some re
             approved_by := some an
             status := JobStatus.rejected } := by
    simp [approve_job, hjG, hgG]
  have hgate1 : (approve_job (applyActs (preScript c) (initState c)) false re an).2.gate =
      some true := by
    simp [approve_job, hjG, hgG]
  set s1 := (approve_job (applyActs (preScript c) (initState c)) false re an).2 with hs1def
  have hst1 : jobStatus s1 = some .rejected := by
    simp [jobStatus, hjob1]
  have happ1 : s1.job.bind Job.approved = some false := by
    simp [hjob1]
  have hread : readApproved s1 = false := by
    simp [readApproved, hjob1]
  have hstep1 : ownerStep c (.pre (preScript c).length) s1 = some (.post false 0, s1) := by
    simp [ownerStep, hread, hgate1]
  have hlen3 : (postScript c false).length = 3 := by
    rw [postScript_false_eq]
    rfl
  have hstep2 : ∀ t, ownerStep c (.post false 0) t = some (.post false 1,
      applyAct (Act.emitProgress "Submission rejected by human reviewer" 90) t) := by
    intro t
    simp only [ownerStep]
    rw [dif_pos (by omega)]
    rw [if_neg (by omega), List.getElem_of_eq (postScript_false_eq c)]
    rfl
  have hstep3 : ∀ t, ownerStep c (.post false 1) t = some (.post false 2,
      applyAct (Act.finish (rejResult c.req)) t) := by
    intro t
    simp only [ownerStep]
    rw [dif_pos (by omega)]
    rw [if_neg (by omega), List.getElem_of_eq (postScript_false_eq c)]
    rfl
  have hstep4 : ∀ t, ownerStep c (.post false 2) t = some (.done,
      applyAct Act.cleanup t) := by
    intro t
    simp only [ownerStep]
    rw [dif_pos (by omega)]
    rw [if_pos (by omega), List.getElem_of_eq (postScript_false_eq c)]
    rfl
  set s2 := applyAct (Act.emitProgress "Submission rejected by human reviewer" 90) s1
    with hs2def
  set s3 := applyAct (Act.finish (rejResult c.req)) s2 with hs3def
  set s4 := applyAct Act.cleanup s3 with hs4def
  have e1 : stepN c 1 (.pre (preScript c).length, s1) = (.post false 0, s1) := by
    rw [stepN_add_one]
    simp only [stepN]
    rw [hstep1]
  have e2 : stepN c 2 (.pre (preScript c).length, s1) = (.post false 1, s2) := by
    rw [stepN_add_one, e1, hstep2 s1]
  have e3 : stepN c 3 (.pre (preScript c).length, s1) = (.post false 2, s3) := by
    rw [stepN_add_one, e2, hstep3 s2]
  have e4 : stepN c 4 (.pre (preScript c).length, s1) = (.done, s4) := by
    rw [stepN_add_one, e3, hstep4 s3]
  have hs2some : ∃ j2, s2.job = some j2 := by
    refine Option.isSome_iff_exists.mp ?_
    rw [hs2def, applyAct_job_isSome, hjob1]
    rfl
  obtain ⟨j2, hj2⟩ := hs2some
  have hst2 : jobStatus s2 = some .rejected := by
    rw [hs2def, applyAct_emit_status, hst1]
  have hfin := finish_fail_spec (r := rejResult c.req) (by simp [rejResult]) hj2
  have hst3 : jobStatus s3 = some .failed := by
    rw [hs3def]
    exact hfin.1
  have herr3 : s3.job.bind Job.error = some "Unknown error" := by
    rw [hs3def]
    have := hfin.2
    simpa [rejResult] using this
  have hst4 : jobStatus s4 = some .failed := by
    rw [hs4def]
    simpa [jobStatus, applyAct_cleanup_job] using hst3
  have herr4 : s4.job.bind Job.error = some "Unknown error" := by
    rw [hs4def, applyAct_cleanup_job]
    exact herr3
  refine ⟨?_, ?_, ?_, ?_, ?_, ?_, ?_⟩
  · rw [hL]
    exact hr1
  · rw [hL]
    exact hst1
  · rw [hL]
    show (stepN c 4 (.pre (preScript c).length, s1)).1 = .done
    rw [e4]
  · rw [hL]
    show jobStatus (stepN c 4 (.pre (preScript c).length, s1)).2 = some .failed
    rw [e4]
    exact hst4
  · rw [hL]
    show (stepN c 4 (.pre (preScript c).length, s1)).2.job.bind Job.error =
      some "Unknown error"
    rw [e4]
    exact herr4
  · -- pre-phase: the job is never COMPLETED before the gate
    intro k
    have hJ := stepN_inv (c := c)
      (I := fun p => jobStatus p.2 ≠ some .completed ∧ p.2.gate ≠ some true ∧
        ∀ a k2, p.1 ≠ .post a k2)
      (p := initPos c) ?_ ?_ k
    · exact hJ.1
    · refine ⟨?_, ?_, ?_⟩
      · simp [initPos, initState, jobStatus, create_job]
      · simp [initPos, initState]
      · intro a k2
        simp [initPos]
    · rintro ⟨pc, s⟩ rr ⟨ih1, ih2, ih3⟩ hstep
      rcases ownerStep_cases hstep with
        ⟨k2, hk2, hpc, hq⟩ | ⟨hpc, hgq, hq⟩ | ⟨a, k2, hk2, hpc, hq⟩
      · subst hq
        have hpcq : ∀ a2 k3, (if k2 + 1 = (preScript c).length ∧ hasGate c = false
            then PC.done else PC.pre (k2 + 1)) ≠ PC.post a2 k3 := by
          intro a2 k3
          split <;> simp
        rcases gate_pre_acts h _ (List.getElem_mem hk2) with hact | ⟨m, n, hact⟩ | hact <;>
          rw [hact]
        · cases hj : s.job with
          | none =>
            exact ⟨by simpa [applyAct, hj] using ih1, by simpa [applyAct, hj] using ih2,
              hpcq⟩
          | some j =>
            refine ⟨?_, by simpa [applyAct, hj] using ih2, hpcq⟩
            simp [applyAct, hj, jobStatus]
        · refine ⟨?_, ?_, hpcq⟩
          · rw [applyAct_emit_status]
            exact ih1
          · cases hj : s.job with
            | none => simpa [applyAct, hj] using ih2
            | some j => simpa [applyAct, hj] using ih2
        · cases hj : s.job with
          | none =>
            exact ⟨by simpa [applyAct, hj] using ih1, by simpa [applyAct, hj] using ih2,
              hpcq⟩
          | some j =>
            refine ⟨?_, ?_, hpcq⟩
            · simp [applyAct, hj, jobStatus]
            · simp [applyAct, hj]
      · exact absurd hgq ih2
      · exact absurd hpc (ih3 a k2)
  · -- post-phase: the job is never COMPLETED after the rejection
    intro k
    rw [hL]
    have hJ := stepN_inv (c := c)
      (I := fun p => jobStatus p.2 ≠ some .completed ∧
        p.2.job.bind Job.approved = some false ∧
        (p.1 = .pre (preScript c).length ∨ (∃ k2, p.1 = .post false k2) ∨ p.1 = .done))
      (p := (.pre (preScript c).length, s1)) ?_ ?_ k
    · exact hJ.1
    · refine ⟨?_, happ1, Or.inl rfl⟩
      rw [hst1]
      simp
    · rintro ⟨pc, s⟩ rr ⟨ih1, ih2, ih3⟩ hstep
      rcases ownerStep_cases hstep with
        ⟨k2, hk2, hpc, hq⟩ | ⟨hpc, hgq, hq⟩ | ⟨a, k2, hk2, hpc, hq⟩
      · exfalso
        rcases ih3 with h3 | ⟨k3, h3⟩ | h3 <;> rw [hpc] at h3
        · have : k2 = (preScript c).length := by injection h3
          omega
        · exact PC.noConfusion h3
        · exact PC.noConfusion h3
      · subst hq
        have hreads : readApproved s = false := by
          cases hj : s.job with
          | none => simp [readApproved, hj]
          | some j =>
            rw [hj] at ih2
            simp only [Option.some_bind] at ih2
            simp [readApproved, hj, ih2]
        rw [hreads]
        exact ⟨ih1, ih2, Or.inr (Or.inl ⟨0, rfl⟩)⟩
      · subst hq
        have ha : a = false := by
          rcases ih3 with h3 | ⟨k3, h3⟩ | h3 <;> rw [hpc] at h3
          · exact PC.noConfusion h3
          · injection h3 with h4 h5
          · exact PC.noConfusion h3
        subst ha
        have hpcq2 : ((if k2 + 1 = (postScript c false).length then PC.done
            else PC.post false (k2 + 1)) = .pre (preScript c).length ∨
            (∃ k3, (if k2 + 1 = (postScript c false).length then PC.done
              else PC.post false (k2 + 1)) = PC.post false k3) ∨
            (if k2 + 1 = (postScript c false).length then PC.done
              else PC.post false (k2 + 1)) = PC.done) := by
          split
          · exact Or.inr (Or.inr rfl)
          · exact Or.inr (Or.inl ⟨k2 + 1, rfl⟩)
        rcases postScript_acts c false _ (List.getElem_mem hk2) with
          ⟨m, n, hact⟩ | ⟨r, hact⟩ | hact <;> rw [hact]
        · refine ⟨?_, ?_, hpcq2⟩
          · rw [applyAct_emit_status]
            exact ih1
          · rw [show (applyAct (Act.emitProgress m n) s).job.bind Job.approved
                = s.job.bind Job.approved from applyAct_approved _ s]
            exact ih2
        · have hr : r = rejResult c.req :=
            postScript_false_finish (hact ▸ List.getElem_mem hk2)
          subst hr
          refine ⟨?_, ?_, hpcq2⟩
          · cases hj : s.job with
            | none => simpa [applyAct, jobStatus, hj] using ih1
            | some j =>
              have := (finish_fail_spec (r := rejResult c.req)
                (by simp [rejResult]) hj).1
              rw [this]
              simp
          · rw [show (applyAct (Act.finish (rejResult c.req)) s).job.bind Job.approved
                = s.job.bind Job.approved from applyAct_approved _ s]
            exact ih2
        · refine ⟨?_, ?_, hpcq2⟩
          · simpa [jobStatus, applyAct_cleanup_job] using ih1
          · rw [applyAct_cleanup_job]
            exact ih2

theorem applyActs_finish_cleanup (A : List Act) (r : EngineResult) (s : MState)
    (hr : r.success = true) (hsome : (applyActs A s).job.isSome = true) :
    jobStatus (applyActs (A ++ [Act.finish r, Act.cleanup]) s) = some .completed := by
  rw [applyActs_append]
  obtain ⟨j, hj⟩ := Option.isSome_iff_exists.mp hsome
  show jobStatus (applyAct .cleanup (applyAct (.finish r) (applyActs A s))) = _
  simp [applyAct, jobStatus, hj, hr]

/-- General no-approval success scenario: the job is never
WAITING_FOR_APPROVAL, no gate entry is ever created, and the run finishes
COMPLETED. -/
theorem noApprovalRun (c : TaskCfg)
    (hurl : pyStartsWith c.req.target_url "http" = true)
    (hi : c.initFail = none) (hn : c.navFail = none)
    (ha : c.req.require_human_approval = false) :
    (∀ k, jobStatus (stepN c k (initPos c)).2 ≠ some .waiting_for_approval ∧
      (stepN c k (initPos c)).2.gate = none) ∧
    (stepN c (preScript c).length (initPos c)).1 = .done ∧
    jobStatus (stepN c (preScript c).length (initPos c)).2 = some .completed := by
  have hg : hasGate c = false := by
    simp [hasGate, ha]
  refine ⟨?_, ?_, ?_⟩
  · intro k
    have hJ := stepN_inv (c := c)
      (I := fun p => jobStatus p.2 ≠ some .waiting_for_approval ∧ p.2.gate = none ∧
        ∀ a2 k2, p.1 ≠ .post a2 k2)
      (p := initPos c) ?_ ?_ k
    · exact ⟨hJ.1, hJ.2.1⟩
    · refine ⟨?_, ?_, ?_⟩
      · simp [initPos, initState, jobStatus, create_job]
      · simp [initPos, initState]
      · intro a2 k2
        simp [initPos]
    · rintro ⟨pc, s⟩ rr ⟨ih1, ih2, ih3⟩ hstep
      rcases ownerStep_cases hstep with
        ⟨k2, hk2, hpc, hq⟩ | ⟨hpc, hgq, hq⟩ | ⟨a2, k2, hk2, hpc, hq⟩
      · subst hq
        have hpcq : ∀ a3 k3, (if k2 + 1 = (preScript c).length ∧ hasGate c = false
            then PC.done else PC.pre (k2 + 1)) ≠ PC.post a3 k3 := by
          intro a3 k3
          split <;> simp
        rcases noappr_acts hurl hi hn ha _ (List.getElem_mem hk2) with
          hact | ⟨m, n, hact⟩ | hact | hact <;> rw [hact]
        · cases hj : s.job with
          | none =>
            exact ⟨by simpa [applyAct, hj] using ih1,
              by simpa [applyAct, hj] using ih2, hpcq⟩
          | some j =>
            refine ⟨?_, by simpa [applyAct, hj] using ih2, hpcq⟩
            simp [applyAct, hj, jobStatus]
        · refine ⟨?_, ?_, hpcq⟩
          · rw [applyAct_emit_status]
            exact ih1
          · cases hj : s.job with
            | none => simpa [applyAct, hj] using ih2
            | some j => simpa [applyAct, hj] using ih2
        · cases hj : s.job with
          | none =>
            exact ⟨by simpa [applyAct, hj] using ih1,
              by simpa [applyAct, hj] using ih2, hpcq⟩
          | some j =>
            refine ⟨?_, ?_, hpcq⟩
            · by_cases hrs : (okResult c.req).success = true <;>
                simp [applyAct, hj, jobStatus, hrs]
            · by_cases hrs : (okResult c.req).success = true
              · have : (applyAct (Act.finish (okResult c.req)) s).gate = s.gate := by
                  simp [applyAct, hj, hrs]
                rw [this]
                exact ih2
              · have : (applyAct (Act.finish (okResult c.req)) s).gate = s.gate := by
                  simp [applyAct, hj, hrs]
                rw [this]
                exact ih2
        · refine ⟨?_, ?_, hpcq⟩
          · simpa [jobStatus, applyAct_cleanup_job] using ih1
          · simp [applyAct]
      · rw [ih2] at hgq
        exact Option.noConfusion hgq
      · exact absurd hpc (ih3 a2 k2)
  · have hL := stepN_pre c (preScript c).length le_rfl
    rw [if_pos ⟨rfl, hg⟩, List.take_length] at hL
    rw [hL]
  · have hL := stepN_pre c (preScript c).length le_rfl
    rw [if_pos ⟨rfl, hg⟩, List.take_length] at hL
    rw [hL]
    show jobStatus (applyActs (preScript c) (initState c)) = some .completed
    rw [preScript_noappr hurl hi hn ha]
    refine applyActs_finish_cleanup _ _ _ rfl ?_
    rw [applyActs_job_isSome]
    simp [initState]

/-! ### Claims -/

/-- C1 (counterexample): in the approval scenario, deciding the gate with
`approved=false` sets the status to REJECTED, but when the owning task
resumes and finishes, the final status of the job record is FAILED — not the
terminal REJECTED the claim requires. -/
theorem claim_C1_cex :
    (approve_job (stepN cfgA (preScript cfgA).length (initPos cfgA)).2
      false "bad" "bob").1 = true ∧
    jobStatus (approve_job (stepN cfgA (preScript cfgA).length (initPos cfgA)).2
      false "bad" "bob").2 = some .rejected ∧
    (stepN cfgA 4 ((stepN cfgA (preScript cfgA).length (initPos cfgA)).1,
      (approve_job (stepN cfgA (preScript cfgA).length (initPos cfgA)).2
        false "bad" "bob").2)).1 = .done ∧
    jobStatus (stepN cfgA 4 ((stepN cfgA (preScript cfgA).length (initPos cfgA)).1,
      (approve_job (stepN cfgA (preScript cfgA).length (initPos cfgA)).2
        false "bad" "bob").2)).2 = some .failed ∧
    JobStatus.failed ≠ JobStatus.rejected := by
  decide

/-- C1 (amended): for every gate-creating run, after `approve_job(job_id,
False, ...)` the job record's status is REJECTED and the task resumes; when it
finishes, the rejection result (`success=False` without an `error` key) takes
the generic failure branch, so the final status is FAILED with
`error = "Unknown error"` — and the job is never COMPLETED at any step. -/
theorem claim_C1_amended (c : TaskCfg) (re an : String) (h : hasGate c = true) :
    (approve_job (stepN c (preScript c).length (initPos c)).2 false re an).1 = true ∧
    jobStatus (approve_job (stepN c (preScript c).length (initPos c)).2 false re an).2 =
      some .rejected ∧
    (stepN c 4 ((stepN c (preScript c).length (initPos c)).1,
      (approve_job (stepN c (preScript c).length (initPos c)).2 false re an).2)).1 =
      .done ∧
    jobStatus (stepN c 4 ((stepN c (preScript c).length (initPos c)).1,
      (approve_job (stepN c (preScript c).length (initPos c)).2 false re an).2)).2 =
      some .failed ∧
    ((stepN c 4 ((stepN c (preScript c).length (initPos c)).1,
      (approve_job (stepN c (preScript c).length (initPos c)).2 false re an).2)).2.job.bind
        Job.error) = some "Unknown error" ∧
    (∀ k, jobStatus (stepN c k (initPos c)).2 ≠ some .completed) ∧
    (∀ k, jobStatus (stepN c k ((stepN c (preScript c).length (initPos c)).1,
      (approve_job (stepN c (preScript c).length (initPos c)).2 false re an).2)).2 ≠
        some .completed) :=
  rejectRun c re an h

/-- C1 witness: the amended claim at the concrete approval scenario. -/
theorem claim_C1_witness :
    (approve_job (stepN cfgA (preScript cfgA).length (initPos cfgA)).2
      false "bad" "bob").1 = true ∧
    jobStatus (approve_job (stepN cfgA (preScript cfgA).length (initPos cfgA)).2
      false "bad" "bob").2 = some .rejected ∧
    jobStatus (stepN cfgA 4 ((stepN cfgA (preScript cfgA).length (initPos cfgA)).1,
      (approve_job (stepN cfgA (preScript cfgA).length (initPos cfgA)).2
        false "bad" "bob").2)).2 = some .failed := by
  have h := claim_C1_amended cfgA "bad" "bob" (by decide)
  exact ⟨h.1, h.2.1, h.2.2.2.1⟩

/-- C2 (counterexample): with the gate open, two back-to-back decision calls
both return `True` (the claim requires the second to return `False`), and the
job record reflects the second decision. -/
theorem claim_C2_cex :
    Reach cfgA ((stepN cfgA (preScript cfgA).length (initPos cfgA)).1,
      (approve_job (approve_job (stepN cfgA (preScript cfgA).length (initPos cfgA)).2
        true "ok" "alice").2 false "no" "bob").2) ∧
    (approve_job (stepN cfgA (preScript cfgA).length (initPos cfgA)).2
      true "ok" "alice").1 = true ∧
    (approve_job (approve_job (stepN cfgA (preScript cfgA).length (initPos cfgA)).2
      true "ok" "alice").2 false "no" "bob").1 = true ∧
    ((approve_job (approve_job (stepN cfgA (preScript cfgA).length (initPos cfgA)).2
      true "ok" "alice").2 false "no" "bob").2.job.bind Job.approved_by) = some "bob" ∧
    ((approve_job (approve_job (stepN cfgA (preScript cfgA).length (initPos cfgA)).2
      true "ok" "alice").2 false "no" "bob").2.job.bind Job.approved) = some false := by
  have hr : Reach cfgA ((stepN cfgA (preScript cfgA).length (initPos cfgA)).1,
      (approve_job (approve_job (stepN cfgA (preScript cfgA).length (initPos cfgA)).2
        true "ok" "alice").2 false "no" "bob").2) :=
    Reach.env false "no" "bob" (Reach.env true "ok" "alice"
      (reach_stepN Reach.init (preScript cfgA).length))
  refine ⟨hr, ?_, ?_, ?_, ?_⟩ <;> decide

/-- C2 (amended): while a gate entry exists — which is the case from the
approval request until the owner's `finally` cleanup, even after a first
decision — every `approve_job` call on an existing job returns `True` and
overwrites `approved`, `approval_reason` and `approved_by`; so two
back-to-back calls both succeed and the record reflects the second. -/
theorem claim_C2_amended (s : MState) (j : Job) (b : Bool)
    (hj : s.job = some j) (hg : s.gate = some b)
    (a1 : Bool) (re1 an1 : String) (a2 : Bool) (re2 an2 : String) :
    (approve_job s a1 re1 an1).1 = true ∧
    (approve_job (approve_job s a1 re1 an1).2 a2 re2 an2).1 = true ∧
    ∃ j2, (approve_job (approve_job s a1 re1 an1).2 a2 re2 an2).2.job = some j2 ∧
      j2.approved = some a2 ∧ j2.approval_reason = some re2 ∧
      j2.approved_by = some an2 ∧
      j2.status = (if a2 then JobStatus.approved else JobStatus.rejected) := by
  have h1job : ∃ j1, (approve_job s a1 re1 an1).2.job = some j1 := by
    cases a1 <;> simp [approve_job, hj, hg]
  obtain ⟨j1, hj1⟩ := h1job
  have h1gate : (approve_job s a1 re1 an1).2.gate = some true := by
    cases a1 <;> simp [approve_job, hj, hg]
  refine ⟨by cases a1 <;> simp [approve_job, hj, hg], ?_, ?_⟩
  · generalize hq : (approve_job s a1 re1 an1).2 = t at hj1 h1gate
    cases a2 <;> simp [approve_job, hj1, h1gate]
  · generalize hq : (approve_job s a1 re1 an1).2 = t at hj1 h1gate
    refine ⟨{ j1 with
              approved := some a2
              approval_reason := some re2
              approved_by := some an2
              status := if a2 then JobStatus.approved else JobStatus.rejected },
      ?_, by simp, by simp, by simp, by simp⟩
    cases a2 <;> simp [approve_job, hj1, h1gate]

/-- C2 witness: the amended claim at the concrete gate state. -/
theorem claim_C2_witness :
    (approve_job (stepN cfgA (preScript cfgA).length (initPos cfgA)).2
      true "ok" "alice").1 = true ∧
    (approve_job (approve_job (stepN cfgA (preScript cfgA).length (initPos cfgA)).2
      true "ok" "alice").2 false "no" "bob").1 = true := by
  have h := claim_C2_amended (stepN cfgA (preScript cfgA).length (initPos cfgA)).2
    ((stepN cfgA (preScript cfgA).length (initPos cfgA)).2.job.get (by decide))
    false (by decide) (by decide) true "ok" "alice" false "no" "bob"
  exact ⟨h.1, h.2.1⟩

/-- C3 (counterexample): a reachable state in which the job id is listed by
`get_pending_approvals` although its status is APPROVED, not
WAITING_FOR_APPROVAL — the gate entry survives the decision until the owner's
cleanup. -/
theorem claim_C3_cex :
    Reach cfgA ((stepN cfgA (preScript cfgA).length (initPos cfgA)).1,
      (approve_job (stepN cfgA (preScript cfgA).length (initPos cfgA)).2
        true "ok" "alice").2) ∧
    get_pending_approvals (approve_job (stepN cfgA (preScript cfgA).length
      (initPos cfgA)).2 true "ok" "alice").2 "j" = ["j"] ∧
    jobStatus (approve_job (stepN cfgA (preScript cfgA).length (initPos cfgA)).2
      true "ok" "alice").2 = some .approved ∧
    JobStatus.approved ≠ JobStatus.waiting_for_approval := by
  refine ⟨Reach.env true "ok" "alice" (reach_stepN Reach.init _), ?_, ?_, ?_⟩ <;> decide

/-- C3 (amended): at every reachable state, `get_pending_approvals` lists a
job id iff a gate entry exists for it (decided or not).  An *undecided* gate
entry exists iff the status is WAITING_FOR_APPROVAL; after a decision the
entry persists (with status APPROVED or REJECTED) until the owner's cleanup,
so listing is not equivalent to WAITING_FOR_APPROVAL. -/
theorem claim_C3_amended (c : TaskCfg) (p : PC × MState) (jid : String)
    (h : Reach c p) :
    (jid ∈ get_pending_approvals p.2 jid ↔ p.2.gate.isSome = true) ∧
    (p.2.gate = some false → jobStatus p.2 = some .waiting_for_approval) ∧
    (jobStatus p.2 = some .waiting_for_approval → p.2.gate = some false) := by
  have hi := invGate_holds c p h
  refine ⟨?_, fun hg => (hi.1 hg).1, hi.2⟩
  unfold get_pending_approvals
  cases hgate : p.2.gate <;> simp [hgate]

/-- C3 witness: the amended claim at the initial reachable state. -/
theorem claim_C3_witness :
    ("j" ∈ get_pending_approvals (initPos cfgA).2 "j" ↔
      (initPos cfgA).2.gate.isSome = true) ∧
    ((initPos cfgA).2.gate = some false →
      jobStatus (initPos cfgA).2 = some .waiting_for_approval) ∧
    (jobStatus (initPos cfgA).2 = some .waiting_for_approval →
      (initPos cfgA).2.gate = some false) :=
  claim_C3_amended cfgA (initPos cfgA) "j" Reach.init

/-- C4 (counterexample): an exception whose message is empty (`str(e) = ""`,
e.g. `raise Exception()`) still drives the handler, but the stored error is
the empty string — contradicting the claim's "(non-empty)". -/
theorem claim_C4_cex :
    Reach cfgA (.done, applyAct .cleanup (applyExn (initPos cfgA).2 "")) ∧
    jobStatus (applyAct .cleanup (applyExn (initPos cfgA).2 "")) = some .failed ∧
    ((applyAct .cleanup (applyExn (initPos cfgA).2 "")).job.bind Job.error) =
      some "" ∧
    String.length "" = 0 := by
  refine ⟨Reach.exn "" Reach.init (by decide), ?_, ?_, rfl⟩ <;> decide

/-- C4 (amended): for every state with a job record and every exception
message, the handler plus `finally` yields status FAILED, stores exactly the
exception's message in `error` (which is empty iff the message is), publishes
an error event, clears the gate and preview entries, and leaves the job in a
state where no further decision succeeds.  The "(non-empty)" part of the
original claim holds only when the exception's message is non-empty. -/
theorem claim_C4_amended (s : MState) (j : Job) (msg : String)
    (hj : s.job = some j) :
    jobStatus (applyAct .cleanup (applyExn s msg)) = some .failed ∧
    ((applyAct .cleanup (applyExn s msg)).job.bind Job.error) = some msg ∧
    (applyAct .cleanup (applyExn s msg)).events = s.events ++
      [{ update_type := "error", message := "Job failed with exception: " ++ msg,
         data := .errorData msg }] ∧
    (applyAct .cleanup (applyExn s msg)).gate = none ∧
    (applyAct .cleanup (applyExn s msg)).preview = none ∧
    (∀ a re an, approve_job (applyAct .cleanup (applyExn s msg)) a re an =
      (false, applyAct .cleanup (applyExn s msg))) := by
  refine ⟨?_, ?_, ?_, rfl, rfl, fun a re an => approve_job_gate_none rfl a re an⟩ <;>
    simp [applyExn, applyAct, jobStatus, hj]

/-- C4 witness: the amended claim at a concrete state and message. -/
theorem claim_C4_witness :
    jobStatus (applyAct .cleanup (applyExn (initState cfgA) "boom")) = some .failed ∧
    ((applyAct .cleanup (applyExn (initState cfgA) "boom")).job.bind Job.error) =
      some "boom" ∧
    (applyAct .cleanup (applyExn (initState cfgA) "boom")).gate = none := by
  have h := claim_C4_amended (initState cfgA) (create_job cfgA.req) "boom" rfl
  exact ⟨h.1, h.2.1, h.2.2.2.1⟩

/-- C5: whenever the owning task has finished — engine success, failure,
rejection or uncaught exception — the job id is absent from the
pending-approvals and approval-preview maps; and the `finally` release
(`dict.pop(job_id, None)`) is idempotent and total. -/
theorem claim_C5 :
    (∀ (c : TaskCfg) (p : PC × MState), Reach c p → p.1 = .done →
      p.2.gate = none ∧ p.2.preview = none ∧
      ∀ jid, get_pending_approvals p.2 jid = []) ∧
    (∀ s : MState, applyAct .cleanup (applyAct .cleanup s) = applyAct .cleanup s ∧
      (applyAct .cleanup s).gate = none ∧ (applyAct .cleanup s).preview = none) := by
  constructor
  · intro c p h hd
    have hi := invDone_holds c p h hd
    exact ⟨hi.1, hi.2, fun jid => by simp [get_pending_approvals, hi.1]⟩
  · intro s
    exact ⟨rfl, rfl, rfl⟩

/-- C5 witness: the finished no-approval run has empty gate and preview. -/
theorem claim_C5_witness :
    (stepN cfgN (preScript cfgN).length (initPos cfgN)).2.gate = none ∧
    (stepN cfgN (preScript cfgN).length (initPos cfgN)).2.preview = none := by
  have h := claim_C5.1 cfgN (stepN cfgN (preScript cfgN).length (initPos cfgN))
    (reach_stepN Reach.init _) (by decide)
  exact ⟨h.1, h.2.1⟩

/-- C6 (counterexample): progress is not monotonically non-decreasing while
RUNNING: the engine emits 10 ("Starting browser automation") and then 5
("Browser initialized"), both delivered while the status is RUNNING. -/
theorem claim_C6_cex :
    jobStatus (stepN cfgA 2 (initPos cfgA)).2 = some .running ∧
    ((stepN cfgA 2 (initPos cfgA)).2.job.map Job.progress_percentage) = some 10 ∧
    jobStatus (stepN cfgA 3 (initPos cfgA)).2 = some .running ∧
    ((stepN cfgA 3 (initPos cfgA)).2.job.map Job.progress_percentage) = some 5 ∧
    ¬ ((10 : Int) ≤ 5) := by
  decide

/-- C6 (amended): at every reachable state the job's `progress_percentage` is
an integer in 0-100, and every published progress event carries a percentage
in 0-100; monotonicity while RUNNING does not hold (see the counterexample —
the spec itself calls it a desired, unenforced invariant). -/
theorem claim_C6_amended (c : TaskCfg) (p : PC × MState) (h : Reach c p) :
    (∀ j, p.2.job = some j →
      0 ≤ j.progress_percentage ∧ j.progress_percentage ≤ 100) ∧
    (∀ e ∈ p.2.events, ∀ n, e.data = .progressData n → 0 ≤ n ∧ n ≤ 100) :=
  invProg_holds c p h

/-- C6 witness: the amended claim at the initial state's job record. -/
theorem claim_C6_witness :
    0 ≤ (create_job cfgA.req).progress_percentage ∧
    (create_job cfgA.req).progress_percentage ≤ 100 :=
  (claim_C6_amended cfgA (initPos cfgA) Reach.init).1 (create_job cfgA.req) rfl

/-- C7: approval scenario — the engine requests approval with preview subject
"X"; `approve_job(job_id, True, "ok", "alice")` succeeds, the suspended task
resumes and finishes, the job reaches COMPLETED and `approved_by = "alice"`. -/
theorem claim_C7 :
    ((stepN cfgA (preScript cfgA).length (initPos cfgA)).2.preview.map
      FormPreview.subject) = some "X" ∧
    jobStatus (stepN cfgA (preScript cfgA).length (initPos cfgA)).2 =
      some .waiting_for_approval ∧
    (approve_job (stepN cfgA (preScript cfgA).length (initPos cfgA)).2
      true "ok" "alice").1 = true ∧
    (stepN cfgA 5 ((stepN cfgA (preScript cfgA).length (initPos cfgA)).1,
      (approve_job (stepN cfgA (preScript cfgA).length (initPos cfgA)).2
        true "ok" "alice").2)).1 = .done ∧
    jobStatus (stepN cfgA 5 ((stepN cfgA (preScript cfgA).length (initPos cfgA)).1,
      (approve_job (stepN cfgA (preScript cfgA).length (initPos cfgA)).2
        true "ok" "alice").2)).2 = some .completed ∧
    ((stepN cfgA 5 ((stepN cfgA (preScript cfgA).length (initPos cfgA)).1,
      (approve_job (stepN cfgA (preScript cfgA).length (initPos cfgA)).2
        true "ok" "alice").2)).2.job.bind Job.approved_by) = some "alice" := by
  decide

/-- C8: for every job submitted with `require_human_approval = false` whose
engine run succeeds (valid URL, browser initialises, navigation succeeds), the
job is never WAITING_FOR_APPROVAL at any step, no gate entry is ever created,
and the run finishes with status COMPLETED. -/
theorem claim_C8 (c : TaskCfg)
    (hurl : pyStartsWith c.req.target_url "http" = true)
    (hi : c.initFail = none) (hn : c.navFail = none)
    (ha : c.req.require_human_approval = false) :
    (∀ k, jobStatus (stepN c k (initPos c)).2 ≠ some .waiting_for_approval ∧
      (stepN c k (initPos c)).2.gate = none) ∧
    (stepN c (preScript c).length (initPos c)).1 = .done ∧
    jobStatus (stepN c (preScript c).length (initPos c)).2 = some .completed :=
  noApprovalRun c hurl hi hn ha

/-- C8 witness: the no-approval scenario configuration. -/
theorem claim_C8_witness :
    jobStatus (stepN cfgN 3 (initPos cfgN)).2 ≠ some .waiting_for_approval ∧
    (stepN cfgN (preScript cfgN).length (initPos cfgN)).1 = .done ∧
    jobStatus (stepN cfgN (preScript cfgN).length (initPos cfgN)).2 =
      some .completed := by
  have h := claim_C8 cfgN (by decide) (by decide) (by decide) (by decide)
  exact ⟨(h.1 3).1, h.2.1, h.2.2⟩

/-- C9 (counterexample): `disconnect_job` with a websocket that is not
registered for a job id that *does* have a connection list raises
`ValueError` (Python `list.remove`), instead of being a no-op. -/
theorem claim_C9_cex :
    disconnect_job { job_connections := [("j", [1])], global_connections := [] }
      2 "j" = none := by
  decide

/-- C9 (amended): `disconnect_global` with an unregistered websocket is a
no-op; `disconnect_job` is a no-op when the job id has no connection list at
all, but when a list exists and the websocket is not in it, `list.remove`
raises `ValueError` — so the unregistered-unsubscribe-is-a-no-op guarantee
holds for the global channel and only partially for job channels. -/
theorem claim_C9_amended :
    (∀ (cm : ConnectionManager) (ws : Nat), ws ∉ cm.global_connections →
      disconnect_global cm ws = cm) ∧
    (∀ (cm : ConnectionManager) (ws : Nat) (jid : String),
      lookupJC cm.job_connections jid = none → disconnect_job cm ws jid = some cm) := by
  constructor
  · intro cm ws h
    simp [disconnect_global, h]
  · intro cm ws jid h
    simp [disconnect_job, h]

/-- C9 witness: the amended claim at concrete connection states. -/
theorem claim_C9_witness :
    disconnect_global { job_connections := [], global_connections := [1] } 2 =
      { job_connections := [], global_connections := [1] } ∧
    disconnect_job { job_connections := [("a", [1])], global_connections := [] }
      2 "b" = some { job_connections := [("a", [1])], global_connections := [] } :=
  ⟨claim_C9_amended.1 _ 2 (by decide), claim_C9_amended.2 _ 2 "b" (by decide)⟩

/-- C10: a failed decision is atomic — whenever `approve_job` returns `False`
(unknown job id, or no gate entry), the whole manager state, including every
job-record field, the pending-approvals and approval-preview entries and the
event log, is unchanged. -/
theorem claim_C10 (s : MState) (a : Bool) (re an : String)
    (h : (approve_job s a re an).1 = false) : (approve_job s a re an).2 = s := by
  cases hj : s.job with
  | none => simp [approve_job, hj]
  | some j =>
    cases hg : s.gate with
    | none => simp [approve_job, hj, hg]
    | some b =>
      exfalso
      rw [show (approve_job s a re an).1 = true from by
        cases a <;> simp [approve_job, hj, hg]] at h
      exact Bool.noConfusion h

/-- C10 witness: a decision on an unknown job id leaves the state unchanged. -/
theorem claim_C10_witness :
    (approve_job { job := none, gate := none, preview := none, events := [] }
      true "r" "a").2 =
      { job := none, gate := none, preview := none, events := [] } :=
  claim_C10 { job := none, gate := none, preview := none, events := [] }
    true "r" "a" (by decide)

end FormAgent
